import Mathlib

/-!
Verification development for the promcron cron scheduler.

The Go sources are shallowly embedded here:
- strings are modelled as `List Char` (`Str`); Go's `strings.Split` with a
  one-character separator, `strings.FieldsFunc`, `strings.TrimSpace` and
  `strings.ToLower` are given as recursive functions on `Str`
  (`toLowerStr` maps `Char.toLower`, which agrees with Go's Unicode
  lowercasing on the ASCII month/weekday name tables used by this program);
- `uint64` arithmetic is `Nat` with an explicit `% 2 ^ 64` where Go's
  shifts can overflow (`goShl`), and Go's `^x` complement is XOR against
  `2 ^ 64 - 1` (`goNot`);
- fallible Go functions returning `(T, error)` become `Except Str T`,
  with error strings built exactly as the corresponding `fmt.Errorf`
  format strings do;
- the iterative bit-fill loop of `getBits` carries explicit fuel
  `max + 1 - min`, which bounds the iteration count of the Go `for` loop
  in every reachable case (`parseTimeRange` rejects `step == 0` before
  calling, and for `step ≥ 1` the loop runs at most `max + 1 - min` times).
-/

abbrev Str := List Char

def str (s : String) : Str := s.data

def natStr (n : Nat) : Str := (Nat.repr n).data

def intStr (z : Int) : Str := (Int.repr z).data

/-- Go `strings.Split(s, sep)` for a one-character separator: splits at
every occurrence, keeping empty substrings; the empty string yields `[""]`. -/
def splitChar (sep : Char) : Str → List Str
  | [] => [[]]
  | c :: cs =>
    if c = sep then [] :: splitChar sep cs
    else
      match splitChar sep cs with
      | [] => [[c]]
      | t :: ts => (c :: t) :: ts

/-- Go `strings.FieldsFunc(s, f)` with `f r = (r == sep)`: like split but
dropping empty substrings. -/
def fieldsFunc (sep : Char) (s : Str) : List Str :=
  (splitChar sep s).filter (fun t => t ≠ [])

instance {α β : Type} [DecidableEq α] [DecidableEq β] : DecidableEq (Except α β) :=
  fun x y =>
    match x, y with
    | Except.ok a, Except.ok b =>
      if h : a = b then isTrue (by rw [h]) else isFalse (by intro hc; cases hc; exact h rfl)
    | Except.error a, Except.error b =>
      if h : a = b then isTrue (by rw [h]) else isFalse (by intro hc; cases hc; exact h rfl)
    | Except.ok _, Except.error _ => isFalse (by intro hc; cases hc)
    | Except.error _, Except.ok _ => isFalse (by intro hc; cases hc)

def toLowerStr (s : Str) : Str := s.map Char.toLower

/-- Membership of a character in Go's `unicode.IsSpace` set, used by
`strings.TrimSpace`. -/
def isGoSpace (c : Char) : Bool :=
  c.toNat = 0x20 || c.toNat = 0x9 || c.toNat = 0xA || c.toNat = 0xB ||
  c.toNat = 0xC || c.toNat = 0xD || c.toNat = 0x85 || c.toNat = 0xA0 ||
  c.toNat = 0x1680 || (0x2000 ≤ c.toNat && c.toNat ≤ 0x200A) ||
  c.toNat = 0x2028 || c.toNat = 0x2029 || c.toNat = 0x202F ||
  c.toNat = 0x205F || c.toNat = 0x3000

/-- Go `strings.TrimSpace`. -/
def goTrimSpace (s : Str) : Str :=
  ((s.dropWhile isGoSpace).reverse.dropWhile isGoSpace).reverse

/-- The `uint64` modulus. -/
def M64 : Nat := 2 ^ 64

def maxUint64 : Nat := M64 - 1

/-- Go `x << s` on `uint64` (shifts by 64 or more give 0, which `% 2^64`
reproduces). -/
def goShl (x s : Nat) : Nat := (x <<< s) % M64

/-- Go `^x` (bitwise complement) on `uint64`. -/
def goNot (x : Nat) : Nat := maxUint64 ^^^ x

-- Source: cron.go `bounds` struct; `names` is the (finite, unique-key)
-- name map as an association list.
structure bounds where
  min : Nat
  max : Nat
  names : List (Str × Nat)
deriving DecidableEq

def minuteBound : bounds := ⟨0, 59, []⟩
def hourBound : bounds := ⟨0, 23, []⟩
def domBound : bounds := ⟨1, 31, []⟩
def monthBound : bounds :=
  ⟨1, 12,
    [(str "jan", 1), (str "feb", 2), (str "mar", 3), (str "apr", 4),
     (str "may", 5), (str "jun", 6), (str "jul", 7), (str "aug", 8),
     (str "sep", 9), (str "oct", 10), (str "nov", 11), (str "dec", 12)]⟩
def dowBound : bounds :=
  ⟨0, 6,
    [(str "sun", 0), (str "mon", 1), (str "tue", 2), (str "wed", 3),
     (str "thu", 4), (str "fri", 5), (str "sat", 6)]⟩

/-- Source: `const starBit = 1 << 63` (the top bit marks a `*` expression). -/
def starBit : Nat := 1 <<< 63

/-- Go map lookup `names[key]`. -/
def lookupName (names : List (Str × Nat)) (key : Str) : Option Nat :=
  match names with
  | [] => none
  | (k, v) :: rest => if k = key then some v else lookupName rest key

/-- Decimal digit run accumulator of `strconv.Atoi`'s base-10 parse. -/
def parseDigitsAux (acc : Nat) : Str → Option Nat
  | [] => some acc
  | c :: cs =>
    if '0' ≤ c ∧ c ≤ '9' then parseDigitsAux (acc * 10 + (c.toNat - '0'.toNat)) cs
    else none

def parseDigits : Str → Option Nat
  | [] => none
  | c :: cs => parseDigitsAux 0 (c :: cs)

/-- Go `strconv.Atoi`: optional sign, then a nonempty run of ASCII digits;
values outside `int64` are a range error (`none`). -/
def atoi (s : Str) : Option Int :=
  match s with
  | [] => none
  | c :: rest =>
    if c = '-' then
      (parseDigits rest).bind fun n =>
        if (n : Int) ≤ 2 ^ 63 then some (-(n : Int)) else none
    else if c = '+' then
      (parseDigits rest).bind fun n =>
        if (n : Int) ≤ 2 ^ 63 - 1 then some (n : Int) else none
    else
      (parseDigits s).bind fun n =>
        if (n : Int) ≤ 2 ^ 63 - 1 then some (n : Int) else none

/-- Source: `mustParseInt`. -/
def mustParseInt (expr : Str) : Except Str Nat :=
  match atoi expr with
  | none => Except.error (str "failed to parse int from " ++ expr)
  | some num =>
    if num < 0 then
      Except.error (str "negative number (" ++ intStr num ++ str ") not allowed: " ++ expr)
    else Except.ok num.toNat

/-- Source: `parseIntOrName`. -/
def parseIntOrName (expr : Str) (names : List (Str × Nat)) : Except Str Nat :=
  match lookupName names (toLowerStr expr) with
  | some namedInt => Except.ok namedInt
  | none => mustParseInt expr

/-- The iterative branch of `getBits`:
`for i := min; i <= max; i += step { bits |= 1 << i }`, with fuel bounding
the iteration count (sufficient whenever `step ≥ 1`). -/
def getBitsLoopFuel : Nat → Nat → Nat → Nat → Nat → Nat
  | 0, _, _, _, bits => bits
  | fuel + 1, mx, step, i, bits =>
    if i ≤ mx then getBitsLoopFuel fuel mx step (i + step) (bits ||| goShl 1 i)
    else bits

/-- Source: `getBits`. For `step == 1` the closed shift form
`^(MaxUint64 << (max + 1)) & (MaxUint64 << min)`; otherwise the loop. -/
def getBits (mn mx step : Nat) : Nat :=
  if step = 1 then goNot (goShl maxUint64 (mx + 1)) &&& goShl maxUint64 mn
  else getBitsLoopFuel (mx + 1 - mn) mx step mn 0

/-- First block of `parseTimeRange`: resolve `start`, `end` and the `extra`
star tag from `lowAndHigh` (the range part split on `-`). -/
def parseStartEnd (lowAndHigh : List Str) (r : bounds) (expr : Str) :
    Except Str (Nat × Nat × Nat) :=
  if lowAndHigh.headD [] = str "*" then Except.ok (r.min, r.max, starBit)
  else
    match parseIntOrName (lowAndHigh.headD []) r.names with
    | Except.error e => Except.error e
    | Except.ok start =>
      match lowAndHigh with
      | [_] => Except.ok (start, start, 0)
      | [_, hi] =>
        match parseIntOrName hi r.names with
        | Except.error e => Except.error e
        | Except.ok endv => Except.ok (start, endv, 0)
      | _ => Except.error (str "too many hyphens: " ++ expr)

/-- Second block of `parseTimeRange`: resolve the step, applying the
`N/step` (single bare value) end override and clearing the star tag for
steps above 1. Returns `(step, end, extra)`. -/
def parseStep (rangeAndStep : List Str) (singleDigit : Bool) (r : bounds)
    (endv extra : Nat) (expr : Str) : Except Str (Nat × Nat × Nat) :=
  match rangeAndStep with
  | [_] => Except.ok (1, endv, extra)
  | [_, stp] =>
    match mustParseInt stp with
    | Except.error e => Except.error e
    | Except.ok step =>
      Except.ok (step, if singleDigit then r.max else endv,
                 if 1 < step then 0 else extra)
  | _ => Except.error (str "too many slashes: " ++ expr)

/-- Validation block of `parseTimeRange` (its four `if` checks in source
order) followed by the final `getBits ... | extra` result. -/
def parseTimeRangeRest2 (start stp en2 ex2 : Nat) (expr : Str) (r : bounds) :
    Except Str Nat :=
  if start < r.min then
    Except.error (str "beginning of range (" ++ natStr start ++
      str ") below minimum (" ++ natStr r.min ++ str "): " ++ expr)
  else if r.max < en2 then
    Except.error (str "end of range (" ++ natStr en2 ++
      str ") above maximum (" ++ natStr r.max ++ str "): " ++ expr)
  else if en2 < start then
    Except.error (str "beginning of range (" ++ natStr start ++
      str ") beyond end of range (" ++ natStr en2 ++ str "): " ++ expr)
  else if stp = 0 then
    Except.error (str "step of range should be a positive number: " ++ expr)
  else Except.ok (getBits start en2 stp ||| ex2)

/-- `parseTimeRange` after its first block has produced
`(start, endv, extra)`. -/
def parseTimeRangeRest (start endv extra : Nat) (expr : Str) (r : bounds) :
    Except Str Nat :=
  match parseStep (splitChar '/' expr)
      ((splitChar '-' ((splitChar '/' expr).headD [])).length == 1) r endv
      extra expr with
  | Except.error e => Except.error e
  | Except.ok (step, endv2, extra2) =>
    parseTimeRangeRest2 start step endv2 extra2 expr r

/-- Source: `parseTimeRange` (the Go locals `rangeAndStep` and
`lowAndHigh` are inlined as `splitChar '/' expr` and
`splitChar '-' rangeAndStep[0]`; the sequential blocks of the Go function
body are the helper functions above). -/
def parseTimeRange (expr : Str) (r : bounds) : Except Str Nat :=
  match parseStartEnd (splitChar '-' ((splitChar '/' expr).headD [])) r expr with
  | Except.error e => Except.error e
  | Except.ok (start, endv, extra) => parseTimeRangeRest start endv extra expr r

/-- Tail of `parseTimeField`'s fold over the comma-separated ranges. -/
def parseTimeFieldAux (r : bounds) (bits : Nat) : List Str → Except Str Nat
  | [] => Except.ok bits
  | e :: es =>
    match parseTimeRange e r with
    | Except.error err => Except.error err
    | Except.ok bit => parseTimeFieldAux r (bits ||| bit) es

/-- Source: `parseTimeField`. -/
def parseTimeField (field : Str) (r : bounds) : Except Str Nat :=
  parseTimeFieldAux r 0 (fieldsFunc ',' field)

-- Source: job.go `Job` struct (compiled schedule; the mutable execution
-- state lives in `JobState` below).
structure Job where
  Name : Str
  Command : Str
  Minute : Nat
  Hour : Nat
  Dom : Nat
  Month : Nat
  Dow : Nat
deriving DecidableEq, Inhabited

/-- The components `ShouldRunAt` reads off its `*time.Time` argument. -/
structure TimeT where
  minute : Nat
  hour : Nat
  day : Nat
  month : Nat
  weekday : Nat
deriving DecidableEq

/-- Source: `Job.ShouldRunAt`. -/
def ShouldRunAt (j : Job) (t : TimeT) : Bool :=
  if goShl 1 t.minute &&& j.Minute = 0 then false
  else if goShl 1 t.hour &&& j.Hour = 0 then false
  else if goShl 1 t.month &&& j.Month = 0 then false
  else
    let domMatch : Bool := decide (0 < goShl 1 t.day &&& j.Dom)
    let dowMatch : Bool := decide (0 < goShl 1 t.weekday &&& j.Dow)
    if 0 < j.Dom &&& starBit ∨ 0 < j.Dow &&& starBit then domMatch && dowMatch
    else domMatch || dowMatch

/-- The field-splitting state machine of `ParseJobs` (states `ST_FIELD`
and `ST_WS`, as `inField`); the 7th field keeps the rest of the line
verbatim because the separator branch requires `len(fields) != 6`. -/
def splitFieldsGo (fields : List Str) (cur : Str) (inField : Bool) : Str → List Str
  | [] => fields ++ [cur]
  | r :: rest =>
    if inField then
      if fields.length ≠ 6 ∧ (r = ' ' ∨ r = '\t') then
        splitFieldsGo (fields ++ [cur]) [] false rest
      else splitFieldsGo fields (cur ++ [r]) true rest
    else
      if r ≠ ' ' ∧ r ≠ '\t' then splitFieldsGo fields [r] true rest
      else splitFieldsGo fields cur false rest

def splitFields (l : Str) : List Str := splitFieldsGo [] [] false l

/-- Go `fmt.Errorf("parse error %s:%d %s", fname, lno, err)`. -/
def parseErrorMsg (fname : Str) (lno : Nat) (err : Str) : Str :=
  str "parse error " ++ fname ++ str ":" ++ natStr lno ++ str " " ++ err

def msg7 : Str := str "expected a label, timespec and a command"

def minuteMsg : Str := str "invalid minute spec: "
def hourMsg : Str := str "invalid hour spec: "
def domMsg : Str := str "invalid day of month spec: "
def monthMsg : Str := str "invalid month spec: "
def dowMsg : Str := str "invalid day of week spec: "

/-- The per-line body of `ParseJobs` once the 7 fields have been split
out: compile the five time fields (wrapping any error with the field's
semantic name and the line location) and prepend the job to the rest of
the table's result. -/
def parseJobsLine (fname : Str) (lno : Nat) (fields : List Str)
    (restResult : Except Str (List Job)) : Except Str (List Job) :=
  match fields with
  | [name, f1, f2, f3, f4, f5, cmd] =>
    match parseTimeField f1 minuteBound with
    | Except.error e => Except.error (parseErrorMsg fname lno (minuteMsg ++ e))
    | Except.ok minute =>
      match parseTimeField f2 hourBound with
      | Except.error e => Except.error (parseErrorMsg fname lno (hourMsg ++ e))
      | Except.ok hour =>
        match parseTimeField f3 domBound with
        | Except.error e => Except.error (parseErrorMsg fname lno (domMsg ++ e))
        | Except.ok dom =>
          match parseTimeField f4 monthBound with
          | Except.error e => Except.error (parseErrorMsg fname lno (monthMsg ++ e))
          | Except.ok month =>
            match parseTimeField f5 dowBound with
            | Except.error e => Except.error (parseErrorMsg fname lno (dowMsg ++ e))
            | Except.ok dow =>
              match restResult with
              | Except.error e => Except.error e
              | Except.ok jobs =>
                Except.ok ({ Name := name, Command := cmd, Minute := minute,
                             Hour := hour, Dom := dom, Month := month,
                             Dow := dow } :: jobs)
  | _ => Except.error (parseErrorMsg fname lno msg7)

/-- The line loop of `ParseJobs`; `lno` is the 0-based index of the first
line of `lines` in the table. -/
def parseJobsAux (fname : Str) : Nat → List Str → Except Str (List Job)
  | _, [] => Except.ok []
  | lno, l :: rest =>
    if goTrimSpace l = [] then parseJobsAux fname (lno + 1) rest
    else if l.headD ' ' = '#' then parseJobsAux fname (lno + 1) rest
    else
      if (splitFields l).length = 0 then parseJobsAux fname (lno + 1) rest
      else parseJobsLine fname lno (splitFields l)
        (parseJobsAux fname (lno + 1) rest)

/-- Source: `ParseJobs`. -/
def ParseJobs (fname tab : Str) : Except Str (List Job) :=
  parseJobsAux fname 0 (splitChar '\n' tab)

-- ### Scheduler loop (main.go)

/-- Go `time.Time` as the scheduler uses it: the wall clock (whole Unix
seconds plus a nanosecond offset in `[0, 1e9)`) together with the
monotonic clock reading (in nanoseconds) that `time.Now` attaches;
`hasMono` records whether the reading is present (it is for every time
the scheduler loop handles, all of which descend from `time.Now` via
`Add`, which keeps the reading). -/
structure GoTime where
  sec : Int
  nsec : Nat
  hasMono : Bool
  mono : Int
deriving DecidableEq

def nsPerSec : Int := 1000000000

/-- Go `t.Unix()`: the wall clock only. -/
def GoTime.unix (t : GoTime) : Int := t.sec

/-- Go `t.Add(d)` for a duration of `d` nanoseconds: the wall clock and
the monotonic reading (when present) both advance by `d`, the wall
nanosecond offset renormalised into `[0, 1e9)`. -/
def GoTime.add (t : GoTime) (d : Int) : GoTime :=
  let w : Int := t.sec * nsPerSec + (Int.ofNat t.nsec) + d
  { sec := w.ediv nsPerSec, nsec := (w.emod nsPerSec).toNat,
    hasMono := t.hasMono, mono := t.mono + d }

/-- Go `t.After(u)`: when both times carry a monotonic clock reading the
comparison uses the monotonic readings alone; otherwise it uses the wall
clock. -/
def GoTime.after (t u : GoTime) : Bool :=
  if t.hasMono && u.hasMono then t.mono > u.mono
  else t.sec > u.sec || (t.sec == u.sec && t.nsec > u.nsec)

/-- Source: `delayTillNextCheck` (main.go), as a duration in
nanoseconds; Go's `Second()` and `Nanosecond()` read the wall clock
(`Second()` is the Unix second modulo 60, the Unix epoch falling on a
minute boundary of Go's internal absolute time). -/
def delayTillNextCheck (fromt : GoTime) : Int :=
  30 * nsPerSec + (60 - fromt.sec.emod 60) * nsPerSec
    - Int.ofNat (fromt.nsec % 1000000000)

/-- Line 217 of main's scheduler loop: `nextCheck := now.Add(delay)`. -/
def nextCheckOf (now : GoTime) : GoTime := now.add (delayTillNextCheck now)

/-- Line 218: `actualPrevCheck := nextCheck.Add(-60 * time.Second)`. -/
def actualPrevCheckOf (now : GoTime) : GoTime :=
  (nextCheckOf now).add (-(60 * nsPerSec))

/-- The clock-anomaly section of one iteration of main's scheduler loop
(lines 215–228 and 250): from the stored `prevCheck` and this tick's
`time.Now()` value, compute `nextCheck` and `actualPrevCheck`, compare
the latter against `prevCheck` at Unix-second granularity, classify any
discrepancy with `time.Time.After`, and store `prevCheck = nextCheck`. -/
def anomalyTick (prevCheck now : GoTime) (fwd bwd : Nat) :
    GoTime × Nat × Nat :=
  if (actualPrevCheckOf now).unix ≠ prevCheck.unix then
    if (actualPrevCheckOf now).after prevCheck then
      (nextCheckOf now, fwd + 1, bwd)
    else (nextCheckOf now, fwd, bwd + 1)
  else (nextCheckOf now, fwd, bwd)

/-- Mutable per-job scheduler state: the atomic `running` flag, the
job's overdue counter, and (as instrumentation of the model) the number
of times `Start` has been invoked for the job. -/
structure JobState where
  running : Bool
  overdue : Nat
  started : Nat
deriving DecidableEq, Inhabited

/-- One job's treatment inside the per-tick loop over `jobs`: skip when
not due; when due and running, count it overdue and do not start it;
when due and idle, start it (`Start` sets the running flag). -/
def jobStep (now : TimeT) (p : Job × JobState) : Job × JobState :=
  if ¬ ShouldRunAt p.1 now then p
  else if p.2.running then (p.1, { p.2 with overdue := p.2.overdue + 1 })
  else (p.1, { p.2 with running := true, started := p.2.started + 1 })

/-- The per-tick job evaluation loop of main (table order). -/
def schedTickJobs (now : TimeT) (js : List (Job × JobState)) :
    List (Job × JobState) :=
  js.map (jobStep now)

-- ### Specification-side definitions (for refinement claims only)

def isWsChar (c : Char) : Bool := c = ' ' || c = '\t'

def dropWs (s : Str) : Str := s.dropWhile isWsChar

def takeNonWs (s : Str) : Str := s.takeWhile (fun c => !(isWsChar c))

def dropNonWs (s : Str) : Str := s.dropWhile (fun c => !(isWsChar c))

/-- Spec-side tokenizer, following the specification text: up to 6 fields
by run-collapsing whitespace splitting, after which the 7th token is the
remainder of the line (leading separator run dropped) kept verbatim. -/
def specGrab : Nat → Str → List Str
  | 0, rest => if rest = [] then [] else [dropWs rest]
  | n + 1, rest =>
    let rest' := dropWs rest
    if rest' = [] then []
    else takeNonWs rest' :: specGrab n (dropNonWs rest')

def specTokenize (l : Str) : List Str := specGrab 6 l

/-- A line `ParseJobs` skips: blank after trimming, or starting with `#`. -/
def lineSkip (l : Str) : Prop :=
  goTrimSpace l = [] ∨ l.headD ' ' = '#'

def fieldOkB {α : Type} (x : Except Str α) : Bool :=
  match x with
  | Except.ok _ => true
  | Except.error _ => false

/-- A line `ParseJobs` accepts without error: skipped, or exactly 7 tokens
with all five time fields compiling. -/
def lineOk (l : Str) : Prop :=
  lineSkip l ∨
  ((splitFields l).length = 7 ∧
   fieldOkB (parseTimeField ((splitFields l).getD 1 []) minuteBound) = true ∧
   fieldOkB (parseTimeField ((splitFields l).getD 2 []) hourBound) = true ∧
   fieldOkB (parseTimeField ((splitFields l).getD 3 []) domBound) = true ∧
   fieldOkB (parseTimeField ((splitFields l).getD 4 []) monthBound) = true ∧
   fieldOkB (parseTimeField ((splitFields l).getD 5 []) dowBound) = true)

instance (l : Str) : Decidable (lineSkip l) := by
  unfold lineSkip; infer_instance

instance (l : Str) : Decidable (lineOk l) := by
  unfold lineOk lineSkip; infer_instance

-- ### Bit-level lemmas

lemma goShl_lt (x s : Nat) : goShl x s < M64 :=
  Nat.mod_lt _ (by unfold M64; positivity)

lemma maxUint64_testBit (k : Nat) : maxUint64.testBit k = decide (k < 64) := by
  have h : maxUint64 = 2 ^ 64 - 1 := rfl
  rw [h, Nat.testBit_two_pow_sub_one]

lemma testBit_goShl (x s k : Nat) :
    (goShl x s).testBit k =
      (decide (k < 64) && (decide (s ≤ k) && x.testBit (k - s))) := by
  show ((x <<< s) % 2 ^ 64).testBit k = _
  rw [Nat.testBit_mod_two_pow, Nat.testBit_shiftLeft]

lemma testBit_one_pos (m : Nat) (hm : m ≠ 0) : Nat.testBit 1 m = false := by
  rw [show (1 : Nat) = 2 ^ 0 from rfl, Nat.testBit_two_pow]
  simp [Ne.symm hm]

lemma testBit_goShl_one (i k : Nat) :
    (goShl 1 i).testBit k = (decide (k = i) && decide (k < 64)) := by
  rw [testBit_goShl]
  rcases Nat.lt_or_ge k 64 with h | h
  · by_cases hk : k = i
    · subst hk; simp [h]
    · by_cases hik : i ≤ k
      · have hki : k - i ≠ 0 := by omega
        simp [h, hik, hk, testBit_one_pos _ hki]
      · simp [h, hik, hk]
  · simp [Nat.not_lt.mpr h, show ¬ k < 64 by omega]

lemma testBit_goNot (x k : Nat) (hx : x < M64) :
    (goNot x).testBit k = (decide (k < 64) && !(x.testBit k)) := by
  unfold goNot
  rcases Nat.lt_or_ge k 64 with h | h
  · simp [Nat.testBit_xor, maxUint64_testBit, h]
  · have h1 : x.testBit k = false := by
      apply Nat.testBit_lt_two_pow
      calc x < M64 := hx
        _ ≤ 2 ^ k := by unfold M64; exact Nat.pow_le_pow_right (by norm_num) h
    simp [Nat.testBit_xor, maxUint64_testBit, h1, show ¬ k < 64 by omega]

lemma closedForm_testBit (mn mx k : Nat) :
    (goNot (goShl maxUint64 (mx + 1)) &&& goShl maxUint64 mn).testBit k =
      decide (mn ≤ k ∧ k ≤ mx ∧ k < 64) := by
  rw [Nat.testBit_and, testBit_goNot _ _ (goShl_lt _ _), testBit_goShl,
    testBit_goShl, maxUint64_testBit, maxUint64_testBit]
  by_cases h1 : k < 64
  · by_cases h2 : mn ≤ k
    · by_cases h3 : k ≤ mx
      · have h4 : ¬ (mx + 1 ≤ k) := by omega
        have h5 : k - mn < 64 := by omega
        simp [h1, h2, h3, h4, h5]
      · have h4 : mx + 1 ≤ k := by omega
        have h5 : k - (mx + 1) < 64 := by omega
        simp [h1, h2, h3, h4, h5]
    · simp [h1, h2]
  · simp [h1]

lemma getBitsLoopFuel_testBit (mx step : Nat) (hs : 1 ≤ step) (hmx : mx < 64) :
    ∀ fuel i bits k, mx + 1 - i ≤ fuel * step →
      (getBitsLoopFuel fuel mx step i bits).testBit k =
        (bits.testBit k || decide (i ≤ k ∧ k ≤ mx ∧ (k - i) % step = 0)) := by
  intro fuel
  induction fuel with
  | zero =>
    intro i bits k hf
    have hi : mx < i := by omega
    have hfalse : ¬ (i ≤ k ∧ k ≤ mx ∧ (k - i) % step = 0) := by
      rintro ⟨a, b, _⟩; omega
    simp [getBitsLoopFuel, hfalse]
  | succ n ih =>
    intro i bits k hf
    have hf' : mx + 1 - i ≤ n * step + step := by
      rw [Nat.succ_mul] at hf; exact hf
    by_cases h : i ≤ mx
    · rw [show getBitsLoopFuel (n + 1) mx step i bits =
            getBitsLoopFuel n mx step (i + step) (bits ||| goShl 1 i) from by
          simp [getBitsLoopFuel, h]]
      rw [ih (i + step) _ k (by omega)]
      rw [Nat.testBit_or, testBit_goShl_one]
      have key : ((decide (k = i) && decide (k < 64)) ||
          decide (i + step ≤ k ∧ k ≤ mx ∧ (k - (i + step)) % step = 0)) =
          decide (i ≤ k ∧ k ≤ mx ∧ (k - i) % step = 0) := by
        rw [Bool.eq_iff_iff]
        simp only [Bool.or_eq_true, Bool.and_eq_true, decide_eq_true_eq]
        constructor
        · rintro (⟨rfl, h64⟩ | ⟨a, b, c⟩)
          · exact ⟨Nat.le_refl k, h, by simp⟩
          · refine ⟨by omega, b, ?_⟩
            have hkk : k - i = (k - (i + step)) + step := by omega
            rw [hkk, Nat.add_mod_right]; exact c
        · rintro ⟨a, b, c⟩
          by_cases hk : k = i
          · exact Or.inl ⟨hk, by omega⟩
          · right
            have hpos : 0 < k - i := by omega
            have hdvd : step ∣ (k - i) := Nat.dvd_of_mod_eq_zero c
            have hstep : step ≤ k - i := Nat.le_of_dvd hpos hdvd
            refine ⟨by omega, b, ?_⟩
            have hm : ((k - (i + step)) + step) % step = (k - (i + step)) % step :=
              Nat.add_mod_right _ _
            rw [show (k - (i + step)) + step = k - i from by omega] at hm
            rw [← hm]; exact c
      rw [Bool.or_assoc, key]
    · rw [show getBitsLoopFuel (n + 1) mx step i bits = bits from by
        simp [getBitsLoopFuel, h]]
      have hfalse : ¬ (i ≤ k ∧ k ≤ mx ∧ (k - i) % step = 0) := by
        rintro ⟨a, b, _⟩; omega
      simp [hfalse]

lemma getBits_testBit (mn mx step : Nat) (h1 : mn ≤ mx) (h2 : mx < 64)
    (h3 : 1 ≤ step) (k : Nat) :
    (getBits mn mx step).testBit k =
      decide (mn ≤ k ∧ k ≤ mx ∧ (k - mn) % step = 0) := by
  unfold getBits
  by_cases hs : step = 1
  · subst hs
    rw [if_pos rfl, closedForm_testBit, decide_eq_decide]
    constructor
    · rintro ⟨a, b, _⟩; exact ⟨a, b, Nat.mod_one _⟩
    · rintro ⟨a, b, _⟩; exact ⟨a, b, by omega⟩
  · rw [if_neg hs,
      getBitsLoopFuel_testBit mx step h3 h2 _ mn 0 k
        (by calc mx + 1 - mn = (mx + 1 - mn) * 1 := (Nat.mul_one _).symm
          _ ≤ (mx + 1 - mn) * step := Nat.mul_le_mul_left _ h3)]
    simp

/-- Claim C3: for valid inputs `min ≤ max` within a field's bounds and
`step ≥ 1`, `getBits` sets exactly the bits
`{min, min+step, min+2*step, ...} ∩ [min, max]`; and for `step = 1` the
closed-form shift expression and the iterative OR loop produce identical
bitsets. -/
theorem c3_getBits_exact_and_loop_equiv (mn mx step : Nat)
    (h1 : mn ≤ mx) (h2 : mx ≤ 59) (h3 : 1 ≤ step) :
    (∀ k, (getBits mn mx step).testBit k =
        decide (mn ≤ k ∧ k ≤ mx ∧ (k - mn) % step = 0)) ∧
    getBits mn mx 1 = getBitsLoopFuel (mx + 1 - mn) mx 1 mn 0 := by
  constructor
  · intro k; exact getBits_testBit mn mx step h1 (by omega) h3 k
  · apply Nat.eq_of_testBit_eq
    intro k
    rw [getBits_testBit mn mx 1 h1 (by omega) (Nat.le_refl 1) k]
    rw [getBitsLoopFuel_testBit mx 1 (Nat.le_refl 1) (by omega) _ mn 0 k
      (by rw [Nat.mul_one])]
    simp

/-- Witness for C3 at concrete inputs (minute bounds, step 5 and step 1). -/
theorem c3_witness :
    (getBits 0 59 5).testBit 10 = true ∧
    getBits 0 59 1 = getBitsLoopFuel 60 59 1 0 0 :=
  ⟨by rw [(c3_getBits_exact_and_loop_equiv 0 59 5 (by decide) (by decide)
      (by decide)).1 10]; decide,
   (c3_getBits_exact_and_loop_equiv 0 59 1 (by decide) (by decide)
      (by decide)).2⟩

lemma land_goShl_one_eq_zero (c F : Nat) (hc : c < 64) :
    (goShl 1 c &&& F = 0) ↔ F.testBit c = false := by
  constructor
  · intro h
    by_contra hb
    rw [Bool.not_eq_false] at hb
    have h1 : (goShl 1 c &&& F).testBit c = true := by
      rw [Nat.testBit_and, testBit_goShl_one]
      simp [hc, hb]
    rw [h] at h1
    simp at h1
  · intro h
    apply Nat.eq_of_testBit_eq
    intro jj
    rw [Nat.testBit_and, testBit_goShl_one, Nat.zero_testBit]
    by_cases hj : jj = c
    · subst hj; simp [h]
    · simp [hj]

lemma land_goShl_one_pos (c F : Nat) (hc : c < 64) :
    (0 < goShl 1 c &&& F) ↔ F.testBit c = true := by
  rw [Nat.pos_iff_ne_zero]
  constructor
  · intro h
    by_contra hb
    rw [Bool.not_eq_true] at hb
    exact h ((land_goShl_one_eq_zero c F hc).mpr hb)
  · intro h hz
    rw [(land_goShl_one_eq_zero c F hc).mp hz] at h
    simp at h

lemma starBit_eq : starBit = goShl 1 63 := by decide

lemma land_starBit_pos (F : Nat) : (0 < F &&& starBit) ↔ F.testBit 63 = true := by
  rw [starBit_eq, Nat.land_comm]
  exact land_goShl_one_pos 63 F (by omega)

/-- Claim C1: `ShouldRunAt` fails fast to false when the minute, hour or
month bit for `t` is unset, and otherwise combines the day-of-month and
day-of-week bit tests with AND when either field carries the wildcard tag
(bit 63) and with OR when neither does. -/
theorem c1_shouldRunAt_spec (j : Job) (t : TimeT)
    (hm : t.minute ≤ 59) (hh : t.hour ≤ 23) (hd : t.day ≤ 31)
    (hmo : t.month ≤ 12) (hw : t.weekday ≤ 6) :
    ShouldRunAt j t =
      (j.Minute.testBit t.minute && j.Hour.testBit t.hour &&
       j.Month.testBit t.month &&
       (if j.Dom.testBit 63 || j.Dow.testBit 63
        then j.Dom.testBit t.day && j.Dow.testBit t.weekday
        else j.Dom.testBit t.day || j.Dow.testBit t.weekday)) := by
  unfold ShouldRunAt
  have e1 := land_goShl_one_eq_zero t.minute j.Minute (by omega)
  have e2 := land_goShl_one_eq_zero t.hour j.Hour (by omega)
  have e3 := land_goShl_one_eq_zero t.month j.Month (by omega)
  have p1 := land_goShl_one_pos t.day j.Dom (by omega)
  have p2 := land_goShl_one_pos t.weekday j.Dow (by omega)
  have s1 := land_starBit_pos j.Dom
  have s2 := land_starBit_pos j.Dow
  simp only [e1, e2, e3, p1, p2, s1, s2]
  cases hb1 : j.Minute.testBit t.minute <;>
  cases hb2 : j.Hour.testBit t.hour <;>
  cases hb3 : j.Month.testBit t.month <;>
  cases hb4 : j.Dom.testBit 63 <;>
  cases hb5 : j.Dow.testBit 63 <;>
  simp [hb1, hb2, hb3, hb4, hb5]

/-- Witness for C1 at a concrete job and time. -/
theorem c1_witness :
    ShouldRunAt
      { Name := str "j", Command := str "c", Minute := 2, Hour := 1,
        Dom := 2, Month := 2, Dow := 1 }
      { minute := 1, hour := 0, day := 1, month := 1, weekday := 0 } = true := by
  rw [c1_shouldRunAt_spec _ _ (by decide) (by decide) (by decide) (by decide)
    (by decide)]
  decide

-- ### String-splitting lemmas

lemma splitChar_ne_nil (sep : Char) (s : Str) : splitChar sep s ≠ [] := by
  cases s with
  | nil => simp [splitChar]
  | cons c cs =>
    by_cases h : c = sep
    · simp [splitChar, h]
    · simp only [splitChar, if_neg h]
      cases hs : splitChar sep cs <;> simp

lemma splitChar_not_mem {sep : Char} {s : Str} (h : sep ∉ s) :
    splitChar sep s = [s] := by
  induction s with
  | nil => rfl
  | cons c cs ih =>
    have hc : ¬ (c = sep) := fun e => h (by rw [e]; exact List.mem_cons_self _ _)
    have hcs : sep ∉ cs := fun m => h (List.mem_cons_of_mem _ m)
    simp only [splitChar, if_neg hc, ih hcs]

lemma splitChar_append {sep : Char} {a : Str} (h : sep ∉ a) (b : Str) :
    splitChar sep (a ++ sep :: b) = a :: splitChar sep b := by
  induction a with
  | nil => simp [splitChar]
  | cons c cs ih =>
    have hc : ¬ (c = sep) := fun e => h (by rw [e]; exact List.mem_cons_self _ _)
    have hcs : sep ∉ cs := fun m => h (List.mem_cons_of_mem _ m)
    simp only [List.cons_append, splitChar, List.append_eq, if_neg hc, ih hcs]

lemma fieldsFunc_single {sep : Char} {s : Str} (h : sep ∉ s) (hne : s ≠ []) :
    fieldsFunc sep s = [s] := by
  unfold fieldsFunc
  rw [splitChar_not_mem h]
  simp [hne]

lemma parseTimeField_single {s : Str} {r : bounds} (h : ',' ∉ s) (hne : s ≠ []) :
    parseTimeField s r = parseTimeRange s r := by
  unfold parseTimeField
  rw [fieldsFunc_single h hne]
  cases hp : parseTimeRange s r with
  | error e => simp [parseTimeFieldAux, hp]
  | ok v => simp [parseTimeFieldAux, hp]

-- ### Digit-string lemmas

lemma parseDigitsAux_mem {n : Nat} {s : Str} :
    ∀ {acc : Nat}, parseDigitsAux acc s = some n → ∀ c ∈ s, '0' ≤ c ∧ c ≤ '9' := by
  induction s with
  | nil => intro acc _ c hc; cases hc
  | cons c cs ih =>
    intro acc h d hd
    rw [parseDigitsAux] at h
    by_cases hc : '0' ≤ c ∧ c ≤ '9'
    · rw [if_pos hc] at h
      rcases List.mem_cons.mp hd with rfl | hd2
      · exact hc
      · exact ih h d hd2
    · rw [if_neg hc] at h; cases h

lemma parseDigits_mem {n : Nat} {s : Str} (h : parseDigits s = some n) :
    ∀ c ∈ s, '0' ≤ c ∧ c ≤ '9' := by
  cases s with
  | nil => cases h
  | cons c cs => exact parseDigitsAux_mem h

lemma atoi_some_shape {s : Str} {z : Int} (h : atoi s = some z) :
    (∃ rest m, s = '-' :: rest ∧ parseDigits rest = some m ∧ z = -(m : Int)) ∨
    (∃ rest m, s = '+' :: rest ∧ parseDigits rest = some m ∧ z = (m : Int)) ∨
    (∃ m, parseDigits s = some m ∧ z = (m : Int)) := by
  cases s with
  | nil => cases h
  | cons c rest =>
    simp only [atoi] at h
    by_cases h0 : c = '-'
    · rw [if_pos h0] at h
      cases hp : parseDigits rest with
      | none => rw [hp] at h; cases h
      | some m =>
        rw [hp] at h
        simp at h
        exact Or.inl ⟨rest, m, by rw [h0], hp, h.2.symm⟩
    · rw [if_neg h0] at h
      by_cases h1 : c = '+'
      · rw [if_pos h1] at h
        cases hp : parseDigits rest with
        | none => rw [hp] at h; cases h
        | some m =>
          rw [hp] at h
          simp at h
          exact Or.inr (Or.inl ⟨rest, m, by rw [h1], hp, h.2.symm⟩)
      · rw [if_neg h1] at h
        cases hp : parseDigits (c :: rest) with
        | none => rw [hp] at h; cases h
        | some m =>
          rw [hp] at h
          simp at h
          exact Or.inr (Or.inr ⟨m, rfl, h.2.symm⟩)

/-- A successfully parsed integer token contains no character that is
neither an ASCII digit nor a leading sign. -/
lemma mustParseInt_ok_not_mem {ss : Str} {n : Nat}
    (h : mustParseInt ss = Except.ok n) (c : Char)
    (hc1 : ¬ ('0' ≤ c ∧ c ≤ '9')) (hc2 : c ≠ '+') (hc3 : c ≠ '-') : c ∉ ss := by
  unfold mustParseInt at h
  cases ha : atoi ss with
  | none => rw [ha] at h; cases h
  | some z =>
    rw [ha] at h
    rcases atoi_some_shape ha with ⟨rest, m, rfl, hp, _⟩ | ⟨rest, m, rfl, hp, _⟩ |
      ⟨m, hp, _⟩
    · intro hmem
      rcases List.mem_cons.mp hmem with rfl | hmem2
      · exact hc3 rfl
      · exact hc1 (parseDigits_mem hp c hmem2)
    · intro hmem
      rcases List.mem_cons.mp hmem with rfl | hmem2
      · exact hc2 rfl
      · exact hc1 (parseDigits_mem hp c hmem2)
    · intro hmem
      exact hc1 (parseDigits_mem hp c hmem)

-- ### parseTimeRange evaluation lemmas

lemma parseTimeRange_eq_of {expr : Str} {r : bounds} {st en ex stp en2 ex2 : Nat}
    (h1 : parseStartEnd (splitChar '-' ((splitChar '/' expr).headD [])) r expr =
      Except.ok (st, en, ex))
    (h2 : parseStep (splitChar '/' expr)
        ((splitChar '-' ((splitChar '/' expr).headD [])).length == 1) r en ex expr =
      Except.ok (stp, en2, ex2))
    (h3 : ¬ st < r.min) (h4 : ¬ r.max < en2) (h5 : ¬ en2 < st) (h6 : ¬ stp = 0) :
    parseTimeRange expr r = Except.ok (getBits st en2 stp ||| ex2) := by
  unfold parseTimeRange
  rw [h1]
  show parseTimeRangeRest st en ex expr r = _
  unfold parseTimeRangeRest
  rw [h2]
  show parseTimeRangeRest2 st stp en2 ex2 expr r = _
  unfold parseTimeRangeRest2
  rw [if_neg h3, if_neg h4, if_neg h5, if_neg h6]

lemma parseTimeRange_err_startEnd {expr : Str} {r : bounds} {e : Str}
    (h : parseStartEnd (splitChar '-' ((splitChar '/' expr).headD [])) r expr =
      Except.error e) :
    parseTimeRange expr r = Except.error e := by
  unfold parseTimeRange
  rw [h]

lemma parseTimeRange_err_step {expr : Str} {r : bounds} {st en ex : Nat} {e : Str}
    (h1 : parseStartEnd (splitChar '-' ((splitChar '/' expr).headD [])) r expr =
      Except.ok (st, en, ex))
    (h2 : parseStep (splitChar '/' expr)
        ((splitChar '-' ((splitChar '/' expr).headD [])).length == 1) r en ex expr =
      Except.error e) :
    parseTimeRange expr r = Except.error e := by
  unfold parseTimeRange
  rw [h1]
  show parseTimeRangeRest st en ex expr r = _
  unfold parseTimeRangeRest
  rw [h2]

lemma parseTimeRange_validation_err {expr : Str} {r : bounds}
    {st en ex stp en2 ex2 : Nat}
    (h1 : parseStartEnd (splitChar '-' ((splitChar '/' expr).headD [])) r expr =
      Except.ok (st, en, ex))
    (h2 : parseStep (splitChar '/' expr)
        ((splitChar '-' ((splitChar '/' expr).headD [])).length == 1) r en ex expr =
      Except.ok (stp, en2, ex2))
    (hbad : st < r.min ∨ r.max < en2 ∨ en2 < st ∨ stp = 0) :
    ∃ e, parseTimeRange expr r = Except.error e := by
  unfold parseTimeRange
  rw [h1]
  show ∃ e, parseTimeRangeRest st en ex expr r = Except.error e
  unfold parseTimeRangeRest
  rw [h2]
  show ∃ e, parseTimeRangeRest2 st stp en2 ex2 expr r = Except.error e
  unfold parseTimeRangeRest2
  by_cases c1 : st < r.min
  · exact ⟨_, by rw [if_pos c1]⟩
  · rw [if_neg c1]
    by_cases c2 : r.max < en2
    · exact ⟨_, by rw [if_pos c2]⟩
    · rw [if_neg c2]
      by_cases c3 : en2 < st
      · exact ⟨_, by rw [if_pos c3]⟩
      · rw [if_neg c3]
        by_cases c4 : stp = 0
        · exact ⟨_, by rw [if_pos c4]⟩
        · rcases hbad with h | h | h | h <;> [exact absurd h c1; exact absurd h c2;
            exact absurd h c3; exact absurd h c4]

lemma parseStep_single (p : Str) (sd : Bool) (r : bounds) (endv extra : Nat)
    (expr : Str) :
    parseStep [p] sd r endv extra expr = Except.ok (1, endv, extra) := rfl

lemma parseStep_pair (p ss : Str) (sd : Bool) (r : bounds) (endv extra : Nat)
    (expr : Str) :
    parseStep [p, ss] sd r endv extra expr =
      (match mustParseInt ss with
       | Except.error e => Except.error e
       | Except.ok step =>
         Except.ok (step, if sd then r.max else endv,
                    if 1 < step then 0 else extra)) := rfl

/-- A range expression whose range part starts (after splitting on `-`)
with the bare `*` compiles, with no step, to the full range plus the star
tag. -/
lemma parseTimeRange_starhead_nostep {r : bounds} {p : Str}
    (hp : '/' ∉ p) (hstar : (splitChar '-' p).headD [] = str "*")
    (hr : r.min ≤ r.max) :
    parseTimeRange p r = Except.ok (getBits r.min r.max 1 ||| starBit) := by
  have hsplit : splitChar '/' p = [p] := splitChar_not_mem hp
  have h1 : parseStartEnd (splitChar '-' ((splitChar '/' p).headD [])) r p =
      Except.ok (r.min, r.max, starBit) := by
    rw [hsplit]
    unfold parseStartEnd
    rw [List.headD_cons, if_pos hstar]
  have h2 : parseStep (splitChar '/' p)
      ((splitChar '-' ((splitChar '/' p).headD [])).length == 1) r r.max starBit p =
      Except.ok (1, r.max, starBit) := by
    rw [hsplit, parseStep_single]
  exact parseTimeRange_eq_of h1 h2 (Nat.lt_irrefl _) (Nat.lt_irrefl _)
    (Nat.not_lt.mpr hr) one_ne_zero

/-- A range expression whose range part starts with the bare `*`, with an
explicit step `s ≥ 1`, compiles to the stepped full range; the star tag
survives exactly when `s = 1`. -/
lemma parseTimeRange_starhead_step {r : bounds} {p ss : Str} {s : Nat}
    (hp : '/' ∉ p) (hss : '/' ∉ ss)
    (hstar : (splitChar '-' p).headD [] = str "*")
    (hs : mustParseInt ss = Except.ok s) (hs1 : 1 ≤ s) (hr : r.min ≤ r.max) :
    parseTimeRange (p ++ '/' :: ss) r =
      Except.ok (getBits r.min r.max s ||| if 1 < s then 0 else starBit) := by
  have hsplit : splitChar '/' (p ++ '/' :: ss) = [p, ss] := by
    rw [splitChar_append hp, splitChar_not_mem hss]
  have h1 : parseStartEnd
      (splitChar '-' ((splitChar '/' (p ++ '/' :: ss)).headD [])) r
      (p ++ '/' :: ss) = Except.ok (r.min, r.max, starBit) := by
    rw [hsplit]
    unfold parseStartEnd
    rw [List.headD_cons, if_pos hstar]
  have h2 : parseStep (splitChar '/' (p ++ '/' :: ss))
      ((splitChar '-' ((splitChar '/' (p ++ '/' :: ss)).headD [])).length == 1) r
      r.max starBit (p ++ '/' :: ss) =
      Except.ok (s, r.max, if 1 < s then 0 else starBit) := by
    rw [hsplit, parseStep_pair, hs, ite_self]
  exact parseTimeRange_eq_of h1 h2 (Nat.lt_irrefl _) (Nat.lt_irrefl _)
    (Nat.not_lt.mpr hr) (by omega)

lemma starBit_testBit (k : Nat) : starBit.testBit k = decide (k = 63) := by
  unfold starBit
  rw [Nat.one_shiftLeft, Nat.testBit_two_pow, decide_eq_decide]
  exact eq_comm

/-- Claim C2: compiling the bare `*` yields exactly the bits
`[bounds.min, bounds.max]` plus the wildcard tag bit 63; `*/s` with
`s > 1` yields the stepped subset with the tag cleared; `*/1` keeps the
tag. -/
theorem c2_wildcard_compile (b : bounds) (h1 : b.min ≤ b.max) (h2 : b.max ≤ 59) :
    (parseTimeField (str "*") b =
        Except.ok (getBits b.min b.max 1 ||| starBit) ∧
     ∀ k, (getBits b.min b.max 1 ||| starBit).testBit k =
        (decide (b.min ≤ k ∧ k ≤ b.max) || decide (k = 63))) ∧
    (∀ ss s, mustParseInt ss = Except.ok s → 1 < s →
       parseTimeField ('*' :: '/' :: ss) b = Except.ok (getBits b.min b.max s) ∧
       (∀ k, (getBits b.min b.max s).testBit k =
          decide (b.min ≤ k ∧ k ≤ b.max ∧ (k - b.min) % s = 0)) ∧
       (getBits b.min b.max s).testBit 63 = false) ∧
    (∀ ss, mustParseInt ss = Except.ok 1 →
       parseTimeField ('*' :: '/' :: ss) b =
         Except.ok (getBits b.min b.max 1 ||| starBit)) := by
  refine ⟨⟨?_, ?_⟩, ?_, ?_⟩
  · rw [parseTimeField_single (by decide) (by decide)]
    exact parseTimeRange_starhead_nostep (by decide) (by decide) h1
  · intro k
    rw [Nat.testBit_or, getBits_testBit b.min b.max 1 h1 (by omega)
      (Nat.le_refl 1) k, starBit_testBit]
    congr 1
    rw [decide_eq_decide]
    exact ⟨fun ⟨a, c, _⟩ => ⟨a, c⟩, fun ⟨a, c⟩ => ⟨a, c, Nat.mod_one _⟩⟩
  · intro ss s hs hs1
    have hsss : '/' ∉ ss :=
      mustParseInt_ok_not_mem hs '/' (by decide) (by decide) (by decide)
    have hnc : ',' ∉ ('*' :: '/' :: ss) := by
      have h' : ',' ∉ ss :=
        mustParseInt_ok_not_mem hs ',' (by decide) (by decide) (by decide)
      simp [List.mem_cons, h']
    rw [parseTimeField_single hnc (by simp)]
    have hrw := parseTimeRange_starhead_step (r := b) (p := str "*")
      (by decide) hsss (by decide) hs (by omega) h1
    rw [show ('*' :: '/' :: ss : Str) = str "*" ++ '/' :: ss from rfl, hrw,
      if_pos hs1]
    refine ⟨by rw [Nat.or_zero], ?_, ?_⟩
    · intro k
      exact getBits_testBit b.min b.max s h1 (by omega) (by omega) k
    · rw [getBits_testBit b.min b.max s h1 (by omega) (by omega) 63]
      have hno : ¬ (b.min ≤ 63 ∧ 63 ≤ b.max ∧ (63 - b.min) % s = 0) := by
        rintro ⟨_, hc, _⟩; omega
      simp [hno]
  · intro ss hs
    have hsss : '/' ∉ ss :=
      mustParseInt_ok_not_mem hs '/' (by decide) (by decide) (by decide)
    have hnc : ',' ∉ ('*' :: '/' :: ss) := by
      have h' : ',' ∉ ss :=
        mustParseInt_ok_not_mem hs ',' (by decide) (by decide) (by decide)
      simp [List.mem_cons, h']
    rw [parseTimeField_single hnc (by simp)]
    have hrw := parseTimeRange_starhead_step (r := b) (p := str "*")
      (by decide) hsss (by decide) hs (by omega) h1
    rw [show ('*' :: '/' :: ss : Str) = str "*" ++ '/' :: ss from rfl, hrw,
      if_neg (by omega)]

/-- Witness for C2 over the minute bounds with steps 5 and 1. -/
theorem c2_witness :
    parseTimeField (str "*") minuteBound =
      Except.ok (getBits 0 59 1 ||| starBit) ∧
    parseTimeField (str "*/5") minuteBound = Except.ok (getBits 0 59 5) ∧
    (getBits 0 59 5).testBit 63 = false ∧
    parseTimeField (str "*/1") minuteBound =
      Except.ok (getBits 0 59 1 ||| starBit) := by
  have h := c2_wildcard_compile minuteBound (by decide) (by decide)
  exact ⟨h.1.1, (h.2.1 (str "5") 5 (by decide) (by decide)).1,
    (h.2.1 (str "5") 5 (by decide) (by decide)).2.2,
    h.2.2 (str "1") (by decide)⟩

/-- Claim C10: a range whose text before the first hyphen is exactly `*`
but which has further hyphen-separated parts is accepted: everything after
the `*` in the range part is ignored and the result is that of the bare
`*` (with normal step handling); the too-many-hyphens check never fires on
this path. -/
theorem c10_star_hyphen_junk_accepted (r : bounds) :
    (∀ rrest : Str, '/' ∉ rrest → r.min ≤ r.max →
       parseTimeRange ('*' :: '-' :: rrest) r = parseTimeRange (str "*") r ∧
       parseTimeRange ('*' :: '-' :: rrest) r =
         Except.ok (getBits r.min r.max 1 ||| starBit)) ∧
    (∀ (rrest ss : Str) (s : Nat), '/' ∉ rrest → '/' ∉ ss →
       mustParseInt ss = Except.ok s → 1 ≤ s → r.min ≤ r.max →
       parseTimeRange (('*' :: '-' :: rrest) ++ '/' :: ss) r =
         parseTimeRange ('*' :: '/' :: ss) r ∧
       parseTimeRange (('*' :: '-' :: rrest) ++ '/' :: ss) r =
         Except.ok (getBits r.min r.max s ||| if 1 < s then 0 else starBit)) := by
  constructor
  · intro rrest hr1 hmm
    have hstar : (splitChar '-' ('*' :: '-' :: rrest)).headD [] = str "*" := by
      rw [show ('*' :: '-' :: rrest : Str) = str "*" ++ '-' :: rrest from rfl,
        splitChar_append (by decide), List.headD_cons]
    have hp : '/' ∉ ('*' :: '-' :: rrest) := by simp [List.mem_cons, hr1]
    have e1 := parseTimeRange_starhead_nostep hp hstar hmm
    have e2 := parseTimeRange_starhead_nostep (r := r) (p := str "*")
      (by decide) (by decide) hmm
    exact ⟨by rw [e1, e2], e1⟩
  · intro rrest ss s hr1 hr2 hs hs1 hmm
    have hstar : (splitChar '-' ('*' :: '-' :: rrest)).headD [] = str "*" := by
      rw [show ('*' :: '-' :: rrest : Str) = str "*" ++ '-' :: rrest from rfl,
        splitChar_append (by decide), List.headD_cons]
    have hp : '/' ∉ ('*' :: '-' :: rrest) := by simp [List.mem_cons, hr1]
    have e1 := parseTimeRange_starhead_step hp hr2 hstar hs hs1 hmm
    have e2 := parseTimeRange_starhead_step (r := r) (p := str "*")
      (by decide) hr2 (by decide) hs hs1 hmm
    rw [show ('*' :: '/' :: ss : Str) = str "*" ++ '/' :: ss from rfl]
    exact ⟨by rw [e1, e2], e1⟩

/-- Witness for C10 on `*-1-2` (two hyphens) and `*-5/2` (hyphen junk plus
step). -/
theorem c10_witness :
    parseTimeRange (str "*-1-2") minuteBound =
      parseTimeRange (str "*") minuteBound ∧
    parseTimeRange (str "*-5/2") minuteBound = Except.ok (getBits 0 59 2) := by
  have h := c10_star_hyphen_junk_accepted minuteBound
  constructor
  · exact (h.1 (str "1-2") (by decide) (by decide)).1
  · have h2 := (h.2 (str "5") (str "2") 2 (by decide) (by decide) (by decide)
      (by decide) (by decide)).2
    rw [show (str "*-5/2" : Str) = ('*' :: '-' :: str "5") ++ '/' :: str "2"
      from rfl, h2]
    decide

lemma parseStartEnd_star {lh : List Str} {r : bounds} {expr : Str}
    (hst : lh.headD [] = str "*") :
    parseStartEnd lh r expr = Except.ok (r.min, r.max, starBit) := by
  unfold parseStartEnd
  rw [if_pos hst]

lemma parseStartEnd_err_first {lh : List Str} {r : bounds} {expr : Str} {e : Str}
    (hne : lh.headD [] ≠ str "*")
    (herr : parseIntOrName (lh.headD []) r.names = Except.error e) :
    parseStartEnd lh r expr = Except.error e := by
  unfold parseStartEnd
  rw [if_neg hne, herr]

lemma parseStartEnd_single {ns : Str} {r : bounds} {expr : Str} {n : Nat}
    (hne : ns ≠ str "*") (hok : parseIntOrName ns r.names = Except.ok n) :
    parseStartEnd [ns] r expr = Except.ok (n, n, 0) := by
  unfold parseStartEnd
  rw [List.headD_cons, if_neg hne, hok]

lemma parseStartEnd_pair {ns hi : Str} {r : bounds} {expr : Str} {n m : Nat}
    (hne : ns ≠ str "*") (hok : parseIntOrName ns r.names = Except.ok n)
    (hok2 : parseIntOrName hi r.names = Except.ok m) :
    parseStartEnd [ns, hi] r expr = Except.ok (n, m, 0) := by
  unfold parseStartEnd
  rw [List.headD_cons, if_neg hne, hok]
  show (match parseIntOrName hi r.names with
    | Except.error e => Except.error e
    | Except.ok endv => Except.ok (n, endv, 0)) = _
  rw [hok2]

lemma parseStartEnd_err_second {ns hi : Str} {r : bounds} {expr : Str}
    {n : Nat} {e : Str}
    (hne : ns ≠ str "*") (hok : parseIntOrName ns r.names = Except.ok n)
    (herr : parseIntOrName hi r.names = Except.error e) :
    parseStartEnd [ns, hi] r expr = Except.error e := by
  unfold parseStartEnd
  rw [List.headD_cons, if_neg hne, hok]
  show (match parseIntOrName hi r.names with
    | Except.error e => Except.error e
    | Except.ok endv => Except.ok (n, endv, 0)) = _
  rw [herr]

lemma parseStep_pair_err {p ss : Str} {sd : Bool} {r : bounds}
    {endv extra : Nat} {expr e : Str}
    (herr : mustParseInt ss = Except.error e) :
    parseStep [p, ss] sd r endv extra expr = Except.error e := by
  rw [parseStep_pair, herr]

lemma parseTimeRange_toOption_eq {e1 e2 : Str} {r : bounds}
    {st en en' ex ex' stp en2 ex2 : Nat}
    (ha1 : parseStartEnd (splitChar '-' ((splitChar '/' e1).headD [])) r e1 =
      Except.ok (st, en, ex))
    (ha2 : parseStartEnd (splitChar '-' ((splitChar '/' e2).headD [])) r e2 =
      Except.ok (st, en', ex'))
    (hb1 : parseStep (splitChar '/' e1)
      ((splitChar '-' ((splitChar '/' e1).headD [])).length == 1) r en ex e1 =
      Except.ok (stp, en2, ex2))
    (hb2 : parseStep (splitChar '/' e2)
      ((splitChar '-' ((splitChar '/' e2).headD [])).length == 1) r en' ex' e2 =
      Except.ok (stp, en2, ex2)) :
    (parseTimeRange e1 r).toOption = (parseTimeRange e2 r).toOption := by
  by_cases hv : st < r.min ∨ r.max < en2 ∨ en2 < st ∨ stp = 0
  · obtain ⟨u1, hu1⟩ := parseTimeRange_validation_err ha1 hb1 hv
    obtain ⟨u2, hu2⟩ := parseTimeRange_validation_err ha2 hb2 hv
    rw [hu1, hu2]
    rfl
  · push_neg at hv
    obtain ⟨v1, v2, v3, v4⟩ := hv
    rw [parseTimeRange_eq_of ha1 hb1 (by omega) (by omega) (by omega) v4,
      parseTimeRange_eq_of ha2 hb2 (by omega) (by omega) (by omega) v4]

lemma parseStep_pair_ok {ss : Str} {s : Nat} (hok : mustParseInt ss = Except.ok s)
    (p : Str) (sd : Bool) (r : bounds) (endv extra : Nat) (expr : Str) :
    parseStep [p, ss] sd r endv extra expr =
      Except.ok (s, if sd then r.max else endv, if 1 < s then 0 else extra) := by
  rw [parseStep_pair, hok]

/-- Claim C4: `N/s` compiles to the same bitset as `N-max/s` where `max`
is the field's upper bound; in particular `5/10` and `5-59/10` compile
identically over the minute bounds. -/
theorem c4_bare_start_step_equiv :
    (∀ (r : bounds) (ns ssx mstr : Str),
       '/' ∉ ns → '-' ∉ ns → '/' ∉ ssx → '/' ∉ mstr → '-' ∉ mstr →
       parseIntOrName mstr r.names = Except.ok r.max →
       (parseTimeRange (ns ++ '/' :: ssx) r).toOption =
         (parseTimeRange (ns ++ '-' :: (mstr ++ '/' :: ssx)) r).toOption) ∧
    parseTimeField (str "5/10") minuteBound =
      parseTimeField (str "5-59/10") minuteBound := by
  constructor
  · intro r ns ssx mstr hn1 hn2 hs1 hm1 hm2 hmok
    have hsp1 : splitChar '/' (ns ++ '/' :: ssx) = [ns, ssx] := by
      rw [splitChar_append hn1, splitChar_not_mem hs1]
    have hsp2 : splitChar '/' (ns ++ '-' :: (mstr ++ '/' :: ssx)) =
        [ns ++ '-' :: mstr, ssx] := by
      rw [show ns ++ '-' :: (mstr ++ '/' :: ssx) =
          (ns ++ '-' :: mstr) ++ '/' :: ssx from by simp]
      rw [splitChar_append (by
        simp only [List.mem_append, List.mem_cons]
        rintro (h | h | h)
        · exact hn1 h
        · cases h
        · exact hm1 h), splitChar_not_mem hs1]
    have hlh1 : splitChar '-' (([ns, ssx] : List Str).headD []) = [ns] := by
      rw [List.headD_cons, splitChar_not_mem hn2]
    have hlh2 : splitChar '-' (([ns ++ '-' :: mstr, ssx] : List Str).headD []) =
        [ns, mstr] := by
      rw [List.headD_cons, splitChar_append hn2, splitChar_not_mem hm2]
    by_cases hstar : ns = str "*"
    · have ha1 : parseStartEnd
          (splitChar '-' ((splitChar '/' (ns ++ '/' :: ssx)).headD [])) r
          (ns ++ '/' :: ssx) = Except.ok (r.min, r.max, starBit) := by
        rw [hsp1, hlh1]
        exact parseStartEnd_star (by rw [List.headD_cons]; exact hstar)
      have ha2 : parseStartEnd
          (splitChar '-' ((splitChar '/' (ns ++ '-' :: (mstr ++ '/' :: ssx))).headD []))
          r (ns ++ '-' :: (mstr ++ '/' :: ssx)) =
          Except.ok (r.min, r.max, starBit) := by
        rw [hsp2, hlh2]
        exact parseStartEnd_star (by rw [List.headD_cons]; exact hstar)
      cases hss : mustParseInt ssx with
      | error e =>
        have he1 := parseTimeRange_err_step ha1
          (by rw [hsp1, hlh1]; exact parseStep_pair_err hss)
        have he2 := parseTimeRange_err_step ha2
          (by rw [hsp2, hlh2]; exact parseStep_pair_err hss)
        rw [he1, he2]
      | ok s =>
        have hb1 : parseStep (splitChar '/' (ns ++ '/' :: ssx))
            ((splitChar '-' ((splitChar '/' (ns ++ '/' :: ssx)).headD [])).length == 1)
            r r.max starBit (ns ++ '/' :: ssx) =
            Except.ok (s, r.max, if 1 < s then 0 else starBit) := by
          rw [hsp1, hlh1, parseStep_pair_ok hss, ite_self]
        have hb2 : parseStep (splitChar '/' (ns ++ '-' :: (mstr ++ '/' :: ssx)))
            ((splitChar '-' ((splitChar '/' (ns ++ '-' :: (mstr ++ '/' :: ssx))).headD [])).length == 1)
            r r.max starBit (ns ++ '-' :: (mstr ++ '/' :: ssx)) =
            Except.ok (s, r.max, if 1 < s then 0 else starBit) := by
          rw [hsp2, hlh2, parseStep_pair_ok hss, ite_self]
        exact parseTimeRange_toOption_eq ha1 ha2 hb1 hb2
    · cases hno : parseIntOrName ns r.names with
      | error e =>
        have he1 : parseTimeRange (ns ++ '/' :: ssx) r = Except.error e := by
          apply parseTimeRange_err_startEnd
          rw [hsp1, hlh1]
          exact parseStartEnd_err_first (by rw [List.headD_cons]; exact hstar)
            (by rw [List.headD_cons]; exact hno)
        have he2 : parseTimeRange (ns ++ '-' :: (mstr ++ '/' :: ssx)) r =
            Except.error e := by
          apply parseTimeRange_err_startEnd
          rw [hsp2, hlh2]
          exact parseStartEnd_err_first (by rw [List.headD_cons]; exact hstar)
            (by rw [List.headD_cons]; exact hno)
        rw [he1, he2]
      | ok n =>
        have ha1 : parseStartEnd
            (splitChar '-' ((splitChar '/' (ns ++ '/' :: ssx)).headD [])) r
            (ns ++ '/' :: ssx) = Except.ok (n, n, 0) := by
          rw [hsp1, hlh1]
          exact parseStartEnd_single hstar hno
        have ha2 : parseStartEnd
            (splitChar '-' ((splitChar '/' (ns ++ '-' :: (mstr ++ '/' :: ssx))).headD []))
            r (ns ++ '-' :: (mstr ++ '/' :: ssx)) = Except.ok (n, r.max, 0) := by
          rw [hsp2, hlh2]
          exact parseStartEnd_pair hstar hno hmok
        cases hss : mustParseInt ssx with
        | error e =>
          have he1 := parseTimeRange_err_step ha1
            (by rw [hsp1, hlh1]; exact parseStep_pair_err hss)
          have he2 := parseTimeRange_err_step ha2
            (by rw [hsp2, hlh2]; exact parseStep_pair_err hss)
          rw [he1, he2]
        | ok s =>
          have hb1 : parseStep (splitChar '/' (ns ++ '/' :: ssx))
              ((splitChar '-' ((splitChar '/' (ns ++ '/' :: ssx)).headD [])).length == 1)
              r n 0 (ns ++ '/' :: ssx) = Except.ok (s, r.max, 0) := by
            rw [hsp1, hlh1, parseStep_pair_ok hss]
            simp
          have hb2 : parseStep (splitChar '/' (ns ++ '-' :: (mstr ++ '/' :: ssx)))
              ((splitChar '-' ((splitChar '/' (ns ++ '-' :: (mstr ++ '/' :: ssx))).headD [])).length == 1)
              r r.max 0 (ns ++ '-' :: (mstr ++ '/' :: ssx)) =
              Except.ok (s, r.max, 0) := by
            rw [hsp2, hlh2, parseStep_pair_ok hss]
            simp
          exact parseTimeRange_toOption_eq ha1 ha2 hb1 hb2
  · decide

/-- Witness for C4 at minute bounds with start 5, step 10, upper bound
written as 59. -/
theorem c4_witness :
    (parseTimeRange (str "5" ++ '/' :: str "10") minuteBound).toOption =
      (parseTimeRange (str "5" ++ '-' :: (str "59" ++ '/' :: str "10"))
        minuteBound).toOption ∧
    parseTimeField (str "5/10") minuteBound =
      parseTimeField (str "5-59/10") minuteBound :=
  ⟨c4_bare_start_step_equiv.1 minuteBound (str "5") (str "10") (str "59")
      (by decide) (by decide) (by decide) (by decide) (by decide) (by decide),
    c4_bare_start_step_equiv.2⟩

/-- Claim C8 (amended): on a tick, when the new previous-tick reference
(`nextCheck − 60s`) agrees with the stored reference at Unix-second
granularity neither anomaly counter changes; when it differs, exactly
one counter is bumped, chosen by `time.Time.After`: the forward counter
when `actualPrevCheck.After(prevCheck)` holds, the backward counter
otherwise. `After` compares the monotonic clock readings whenever both
times carry one — as all times in the scheduler loop do — and the wall
clock only otherwise, so the classification follows the monotonic
clock, not the direction of the wall-clock gap; `Add` preserves the
monotonic reading, which evolves by exactly the added duration. -/
theorem c8_anomaly_counters (p now : GoTime) (f b : Nat) :
    ((actualPrevCheckOf now).unix = p.unix →
       anomalyTick p now f b = (nextCheckOf now, f, b)) ∧
    ((actualPrevCheckOf now).unix ≠ p.unix →
       ((actualPrevCheckOf now).after p = true →
          anomalyTick p now f b = (nextCheckOf now, f + 1, b)) ∧
       ((actualPrevCheckOf now).after p = false →
          anomalyTick p now f b = (nextCheckOf now, f, b + 1))) ∧
    ((actualPrevCheckOf now).hasMono = true → p.hasMono = true →
       ((actualPrevCheckOf now).after p = true ↔
          p.mono < (actualPrevCheckOf now).mono)) ∧
    (((actualPrevCheckOf now).hasMono = true ∧ p.hasMono = true → False) →
       ((actualPrevCheckOf now).after p = true ↔
          (p.sec < (actualPrevCheckOf now).sec ∨
           ((actualPrevCheckOf now).sec = p.sec ∧
            p.nsec < (actualPrevCheckOf now).nsec)))) ∧
    (actualPrevCheckOf now).hasMono = now.hasMono ∧
    (actualPrevCheckOf now).mono =
      now.mono + delayTillNextCheck now + -(60 * nsPerSec) := by
  refine ⟨?_, fun hne => ⟨?_, ?_⟩, ?_, ?_, rfl, rfl⟩
  · intro h
    unfold anomalyTick
    rw [if_neg (not_not_intro h)]
  · intro haft
    unfold anomalyTick
    rw [if_pos hne, if_pos haft]
  · intro haft
    unfold anomalyTick
    rw [if_pos hne, if_neg (by rw [haft]; exact Bool.false_ne_true)]
  · intro h1 h2
    unfold GoTime.after
    rw [if_pos (by rw [h1, h2]; rfl)]
    simp only [gt_iff_lt, decide_eq_true_eq]
  · intro hnand
    unfold GoTime.after
    rw [if_neg (fun hb => hnand (by rwa [Bool.and_eq_true] at hb))]
    simp only [Bool.or_eq_true, Bool.and_eq_true, decide_eq_true_eq,
      gt_iff_lt, beq_iff_eq]

/-- Counterexample to C8 as stated: both scheduler times carry monotonic
readings (all descend from `time.Now` via `Add`), so `After` classifies
by the monotonic clock. After a +70s forward wall-clock step with no
monotonic time elapsed (as when the step falls between the two initial
`time.Now()` calls of main), the new previous-tick reference is 60 wall
seconds later than the stored one — a forward gap — yet the backward
counter is the one incremented. -/
theorem c8_counterexample :
    (actualPrevCheckOf ⟨100, 0, true, 0⟩).unix = 90 ∧
    (⟨30, 0, true, 0⟩ : GoTime).unix = 30 ∧
    anomalyTick ⟨30, 0, true, 0⟩ ⟨100, 0, true, 0⟩ 0 0 =
      (⟨150, 0, true, 50000000000⟩, 0, 1) := by
  decide

/-- Witness for C8 at concrete times: agreement leaves the counters
alone; a monotonically-later reference bumps the forward counter and a
monotonically-earlier one the backward counter; the `After`
characterizations at times with and without monotonic readings. -/
theorem c8_witness :
    anomalyTick ⟨30, 0, true, 0⟩ ⟨30, 0, true, 0⟩ 3 4 =
      (⟨90, 0, true, 60000000000⟩, 3, 4) ∧
    anomalyTick ⟨30, 0, true, 0⟩ ⟨90, 0, true, 60000000000⟩ 3 4 =
      (⟨150, 0, true, 120000000000⟩, 4, 4) ∧
    anomalyTick ⟨30, 0, true, 0⟩ ⟨100, 0, true, 1⟩ 3 4 =
      (⟨150, 0, true, 50000000001⟩, 3, 5) ∧
    ((actualPrevCheckOf ⟨90, 0, true, 60000000000⟩).after ⟨30, 0, true, 0⟩ =
        true ↔
      (⟨30, 0, true, 0⟩ : GoTime).mono <
        (actualPrevCheckOf ⟨90, 0, true, 60000000000⟩).mono) ∧
    ((actualPrevCheckOf ⟨100, 0, false, 0⟩).after ⟨30, 0, false, 0⟩ = true ↔
      ((⟨30, 0, false, 0⟩ : GoTime).sec <
         (actualPrevCheckOf ⟨100, 0, false, 0⟩).sec ∨
       ((actualPrevCheckOf ⟨100, 0, false, 0⟩).sec =
          (⟨30, 0, false, 0⟩ : GoTime).sec ∧
        (⟨30, 0, false, 0⟩ : GoTime).nsec <
          (actualPrevCheckOf ⟨100, 0, false, 0⟩).nsec))) :=
  ⟨(c8_anomaly_counters ⟨30, 0, true, 0⟩ ⟨30, 0, true, 0⟩ 3 4).1 (by decide),
   ((c8_anomaly_counters ⟨30, 0, true, 0⟩ ⟨90, 0, true, 60000000000⟩ 3 4).2.1
      (by decide)).1 (by decide),
   ((c8_anomaly_counters ⟨30, 0, true, 0⟩ ⟨100, 0, true, 1⟩ 3 4).2.1
      (by decide)).2 (by decide),
   (c8_anomaly_counters ⟨30, 0, true, 0⟩ ⟨90, 0, true, 60000000000⟩ 3 4).2.2.1
      (by decide) (by decide),
   (c8_anomaly_counters ⟨30, 0, false, 0⟩ ⟨100, 0, false, 0⟩ 3 4).2.2.2.1
      (by decide)⟩

/-- Claim C9: jobs are evaluated elementwise in table order; a due idle
job is started (running set, one start recorded); a due running job is
never started again and its overdue counter is incremented exactly once
for the tick; a job that is not due is untouched. -/
theorem c9_tick_no_overlap (now : TimeT) (js : List (Job × JobState)) :
    (schedTickJobs now js).length = js.length ∧
    (∀ i, i < js.length →
       (schedTickJobs now js).getD i default = jobStep now (js.getD i default)) ∧
    (∀ (j : Job) (st : JobState),
       (ShouldRunAt j now = true → st.running = false →
         jobStep now (j, st) = (j, ⟨true, st.overdue, st.started + 1⟩)) ∧
       (ShouldRunAt j now = true → st.running = true →
         jobStep now (j, st) = (j, ⟨true, st.overdue + 1, st.started⟩)) ∧
       (ShouldRunAt j now = false → jobStep now (j, st) = (j, st))) := by
  refine ⟨by simp [schedTickJobs], ?_, ?_⟩
  · intro i hi
    unfold schedTickJobs
    rw [List.getD_eq_getElem _ _ (by simpa using hi),
      List.getD_eq_getElem _ _ hi, List.getElem_map]
  · intro j st
    refine ⟨fun hdue hrun => ?_, fun hdue hrun => ?_, fun hdue => ?_⟩
    · simp [jobStep, hdue, hrun]
    · simp [jobStep, hdue, hrun]
    · simp [jobStep, hdue]

/-- Witness for C9: one due idle job, one due running job, one not-due
job, on a two-entry table. -/
theorem c9_witness :
    jobStep { minute := 0, hour := 0, day := 1, month := 1, weekday := 0 }
      ({ Name := str "a", Command := str "c", Minute := 1, Hour := 1,
         Dom := 2, Month := 2, Dow := 1 }, ⟨false, 7, 2⟩) =
      ({ Name := str "a", Command := str "c", Minute := 1, Hour := 1,
         Dom := 2, Month := 2, Dow := 1 }, ⟨true, 7, 3⟩) ∧
    jobStep { minute := 0, hour := 0, day := 1, month := 1, weekday := 0 }
      ({ Name := str "a", Command := str "c", Minute := 1, Hour := 1,
         Dom := 2, Month := 2, Dow := 1 }, ⟨true, 7, 2⟩) =
      ({ Name := str "a", Command := str "c", Minute := 1, Hour := 1,
         Dom := 2, Month := 2, Dow := 1 }, ⟨true, 8, 2⟩) ∧
    (schedTickJobs { minute := 0, hour := 0, day := 1, month := 1, weekday := 0 }
      [({ Name := str "a", Command := str "c", Minute := 1, Hour := 1,
          Dom := 2, Month := 2, Dow := 1 }, ⟨false, 7, 2⟩)]).length = 1 := by
  have h := c9_tick_no_overlap
    { minute := 0, hour := 0, day := 1, month := 1, weekday := 0 }
    [({ Name := str "a", Command := str "c", Minute := 1, Hour := 1,
        Dom := 2, Month := 2, Dow := 1 }, ⟨false, 7, 2⟩)]
  refine ⟨?_, ?_, h.1⟩
  · exact (h.2.2 _ ⟨false, 7, 2⟩).1 (by decide) rfl
  · exact (h.2.2 _ ⟨true, 7, 2⟩).2.1 (by decide) rfl

-- ### Tokenizer lemmas (splitFields vs the spec-side tokenizer)

lemma isWsChar_iff (c : Char) : isWsChar c = true ↔ (c = ' ' ∨ c = '\t') := by
  unfold isWsChar
  simp

lemma dropWhile_head_not {p : Char → Bool} :
    ∀ {l : Str} {c : Char} {rest : Str},
      List.dropWhile p l = c :: rest → p c = false := by
  intro l
  induction l with
  | nil => intro c rest h; cases h
  | cons d ds ih =>
    intro c rest h
    rw [List.dropWhile_cons] at h
    by_cases hd : p d = true
    · rw [if_pos hd] at h; exact ih h
    · rw [if_neg hd] at h
      cases h
      exact Bool.not_eq_true _ |>.mp hd

lemma dropWs_cons_pos {c : Char} (h : isWsChar c = true) (rest : Str) :
    dropWs (c :: rest) = dropWs rest := by
  unfold dropWs
  rw [List.dropWhile_cons, if_pos h]

lemma dropWs_cons_neg {c : Char} (h : isWsChar c = false) (rest : Str) :
    dropWs (c :: rest) = c :: rest := by
  unfold dropWs
  rw [List.dropWhile_cons, if_neg (by rw [h]; exact Bool.false_ne_true)]

lemma takeNonWs_cons {c : Char} (h : isWsChar c = false) (rest : Str) :
    takeNonWs (c :: rest) = c :: takeNonWs rest := by
  unfold takeNonWs
  rw [List.takeWhile_cons, if_pos (by rw [h]; rfl)]

lemma dropNonWs_cons {c : Char} (h : isWsChar c = false) (rest : Str) :
    dropNonWs (c :: rest) = dropNonWs rest := by
  unfold dropNonWs
  rw [List.dropWhile_cons, if_pos (by rw [h]; rfl)]

lemma splitFieldsGo_nil (fields : List Str) (cur : Str) (inF : Bool) :
    splitFieldsGo fields cur inF [] = fields ++ [cur] := by
  cases inF <;> rfl

lemma splitFieldsGo_ws_ws {c : Char} (h : isWsChar c = true)
    (fields : List Str) (cur : Str) (rest : Str) :
    splitFieldsGo fields cur false (c :: rest) =
      splitFieldsGo fields cur false rest := by
  have h' := (isWsChar_iff c).mp h
  have hneg : ¬ (c ≠ ' ' ∧ c ≠ '\t') := by
    rintro ⟨hc1, hc2⟩
    rcases h' with h' | h'
    · exact hc1 h'
    · exact hc2 h'
  simp only [splitFieldsGo]
  rw [if_neg hneg]
  simp

lemma splitFieldsGo_ws_nws {c : Char} (h : isWsChar c = false)
    (fields : List Str) (cur : Str) (rest : Str) :
    splitFieldsGo fields cur false (c :: rest) =
      splitFieldsGo fields [c] true rest := by
  have h' : ¬ (c = ' ' ∨ c = '\t') := by
    rw [← isWsChar_iff, h]; exact Bool.false_ne_true
  have hpos : c ≠ ' ' ∧ c ≠ '\t' :=
    ⟨fun e => h' (Or.inl e), fun e => h' (Or.inr e)⟩
  simp only [splitFieldsGo]
  rw [if_pos hpos]
  simp

lemma splitFieldsGo_field_sep {c : Char} (h : isWsChar c = true)
    {fields : List Str} (hlen : fields.length ≠ 6) (cur : Str) (rest : Str) :
    splitFieldsGo fields cur true (c :: rest) =
      splitFieldsGo (fields ++ [cur]) [] false rest := by
  have hpos : fields.length ≠ 6 ∧ (c = ' ' ∨ c = '\t') :=
    ⟨hlen, (isWsChar_iff c).mp h⟩
  simp only [splitFieldsGo]
  rw [if_pos hpos]
  simp

lemma splitFieldsGo_field_char {c : Char} (h : isWsChar c = false)
    (fields : List Str) (cur : Str) (rest : Str) :
    splitFieldsGo fields cur true (c :: rest) =
      splitFieldsGo fields (cur ++ [c]) true rest := by
  have h' : ¬ (c = ' ' ∨ c = '\t') := by
    rw [← isWsChar_iff, h]; exact Bool.false_ne_true
  have hneg : ¬ (fields.length ≠ 6 ∧ (c = ' ' ∨ c = '\t')) := by
    rintro ⟨_, hc⟩; exact h' hc
  simp only [splitFieldsGo]
  rw [if_neg hneg]
  simp

lemma splitFieldsGo_field_char6 {c : Char} {fields : List Str}
    (hlen : fields.length = 6) (cur : Str) (rest : Str) :
    splitFieldsGo fields cur true (c :: rest) =
      splitFieldsGo fields (cur ++ [c]) true rest := by
  have hneg : ¬ (fields.length ≠ 6 ∧ (c = ' ' ∨ c = '\t')) := by
    rintro ⟨hne, _⟩; exact hne hlen
  simp only [splitFieldsGo]
  rw [if_neg hneg]
  simp

lemma splitFieldsGo_skipWs (fields : List Str) :
    ∀ l : Str, splitFieldsGo fields [] false l =
      splitFieldsGo fields [] false (dropWs l) := by
  intro l
  induction l with
  | nil => rfl
  | cons c rest ih =>
    cases hc : isWsChar c with
    | true => rw [splitFieldsGo_ws_ws hc, dropWs_cons_pos hc, ih]
    | false => rw [dropWs_cons_neg hc]

lemma splitFieldsGo_cmd (fields : List Str) (hlen : fields.length = 6) :
    ∀ (l cur : Str), splitFieldsGo fields cur true l = fields ++ [cur ++ l] := by
  intro l
  induction l with
  | nil => intro cur; rw [splitFieldsGo_nil, List.append_nil]
  | cons c rest ih =>
    intro cur
    rw [splitFieldsGo_field_char6 hlen, ih]
    simp

lemma splitFieldsGo_cmd_ws (fields : List Str) (hlen : fields.length = 6) :
    ∀ l : Str, splitFieldsGo fields [] false l = fields ++ [dropWs l] := by
  intro l
  induction l with
  | nil => rfl
  | cons c rest ih =>
    cases hc : isWsChar c with
    | true => rw [splitFieldsGo_ws_ws hc, dropWs_cons_pos hc, ih]
    | false =>
      rw [splitFieldsGo_ws_nws hc, splitFieldsGo_cmd fields hlen rest [c],
        dropWs_cons_neg hc]
      rfl

lemma splitFieldsGo_word {fields : List Str} (hlen : fields.length ≠ 6) :
    ∀ (l cur : Str), splitFieldsGo fields cur true l =
      if dropNonWs l = [] then fields ++ [cur ++ takeNonWs l]
      else splitFieldsGo (fields ++ [cur ++ takeNonWs l]) [] false (dropNonWs l).tail := by
  intro l
  induction l with
  | nil =>
    intro cur
    rw [splitFieldsGo_nil]
    simp [dropNonWs, takeNonWs]
  | cons c rest ih =>
    intro cur
    cases hc : isWsChar c with
    | true =>
      rw [splitFieldsGo_field_sep hc hlen]
      have hd : dropNonWs (c :: rest) = c :: rest := by
        unfold dropNonWs
        rw [List.dropWhile_cons, if_neg (by simp [hc])]
      have ht : takeNonWs (c :: rest) = [] := by
        unfold takeNonWs
        rw [List.takeWhile_cons, if_neg (by simp [hc])]
      rw [hd, ht]
      rw [if_neg (by simp)]
      simp
    | false =>
      rw [splitFieldsGo_field_char hc, ih, takeNonWs_cons hc, dropNonWs_cons hc]
      simp

lemma specGrab_nil (n : Nat) : specGrab n [] = [] := by
  cases n <;> rfl

lemma specGrab_length (n : Nat) : ∀ l : Str, (specGrab n l).length ≤ n + 1 := by
  induction n with
  | zero =>
    intro l
    unfold specGrab
    by_cases h : l = [] <;> simp [h]
  | succ m ih =>
    intro l
    unfold specGrab
    by_cases h : dropWs l = []
    · simp [h]
    · simp only [if_neg h, List.length_cons]
      have := ih (dropNonWs (dropWs l))
      omega

lemma specGrab_ws_cons {m : Nat} (hm : 1 ≤ m) {d : Char} (hd : isWsChar d = true)
    (rest : Str) : specGrab m (d :: rest) = specGrab m rest := by
  cases m with
  | zero => omega
  | succ k =>
    unfold specGrab
    rw [dropWs_cons_pos hd]

lemma splitFieldsGo_grab :
    ∀ n, 1 ≤ n → n ≤ 6 → ∀ (l : Str) (fields : List Str), fields.length = 6 - n →
      splitFieldsGo fields [] false l = fields ++ specGrab n l ∨
      (splitFieldsGo fields [] false l = fields ++ specGrab n l ++ [[]] ∧
       (specGrab n l).length < n) := by
  intro n
  induction n with
  | zero => intro h; omega
  | succ m ih =>
    intro _ hn6 l fields hlen
    rw [splitFieldsGo_skipWs]
    cases hl : dropWs l with
    | nil =>
      rw [splitFieldsGo_nil]
      have hsp : specGrab (m + 1) l = [] := by
        unfold specGrab
        rw [hl]
        simp
      right
      rw [hsp]
      simp
    | cons c rest =>
      have hc : isWsChar c = false :=
        dropWhile_head_not (show List.dropWhile isWsChar l = c :: rest from hl)
      rw [splitFieldsGo_ws_nws hc]
      have hlen' : fields.length ≠ 6 := by omega
      rw [splitFieldsGo_word hlen' rest [c]]
      have hspec : specGrab (m + 1) l =
          (c :: takeNonWs rest) :: specGrab m (dropNonWs rest) := by
        have hunf : specGrab (m + 1) l =
            (if dropWs l = [] then []
             else takeNonWs (dropWs l) :: specGrab m (dropNonWs (dropWs l))) := rfl
        rw [hunf, hl, if_neg (by simp), takeNonWs_cons hc, dropNonWs_cons hc]
      by_cases hdrop : dropNonWs rest = []
      · rw [if_pos hdrop]
        left
        rw [hspec, hdrop, specGrab_nil]
        simp
      · rw [if_neg hdrop]
        obtain ⟨d, rest2, hd2⟩ : ∃ d rest2, dropNonWs rest = d :: rest2 := by
          cases hx : dropNonWs rest with
          | nil => exact absurd hx hdrop
          | cons d r2 => exact ⟨d, r2, rfl⟩
        have hdws : isWsChar d = true := by
          have hnb := dropWhile_head_not (p := fun x => !(isWsChar x))
            (show List.dropWhile (fun x => !(isWsChar x)) rest = d :: rest2 from hd2)
          simpa using hnb
        rw [hd2]
        simp only [List.tail_cons]
        cases Nat.eq_zero_or_pos m with
        | inl hm0 =>
          subst hm0
          have hlen6 : (fields ++ [[c] ++ takeNonWs rest]).length = 6 := by
            simp [List.length_append]
            omega
          rw [splitFieldsGo_cmd_ws _ hlen6 rest2]
          left
          rw [hspec, hd2]
          rw [show specGrab 0 (d :: rest2) = [dropWs rest2] from by
            unfold specGrab
            rw [if_neg (by simp), dropWs_cons_pos hdws]]
          simp
        | inr hmpos =>
          have hrec := ih hmpos (by omega) rest2 (fields ++ [[c] ++ takeNonWs rest])
            (by simp [List.length_append]; omega)
          rw [hspec, hd2, specGrab_ws_cons hmpos hdws]
          rcases hrec with heq | ⟨heq, hlt⟩
          · left
            rw [heq]
            simp
          · right
            constructor
            · rw [heq]
              simp
            · simp only [List.length_cons]
              omega

lemma splitFields_spec (l : Str) :
    splitFields l = specTokenize l ∨
    (splitFields l = specTokenize l ++ [[]] ∧ (specTokenize l).length < 6) :=
  splitFieldsGo_grab 6 (by omega) (by omega) l [] rfl

lemma splitFields_length7_eq {l : Str}
    (h : (splitFields l).length = 7 ∨ (specTokenize l).length = 7) :
    splitFields l = specTokenize l := by
  rcases splitFields_spec l with heq | ⟨heq, hlt⟩
  · exact heq
  · exfalso
    rcases h with h7 | h7
    · rw [heq] at h7
      simp [List.length_append] at h7
      omega
    · omega

lemma splitFieldsGo_len_pos :
    ∀ (l : Str) (fields : List Str) (cur : Str) (inF : Bool),
      1 ≤ (splitFieldsGo fields cur inF l).length := by
  intro l
  induction l with
  | nil =>
    intro fields cur inF
    rw [splitFieldsGo_nil]
    simp
  | cons c rest ih =>
    intro fields cur inF
    cases inF with
    | false =>
      cases hc : isWsChar c with
      | true => rw [splitFieldsGo_ws_ws hc]; exact ih _ _ _
      | false => rw [splitFieldsGo_ws_nws hc]; exact ih _ _ _
    | true =>
      by_cases hlen : fields.length = 6
      · rw [splitFieldsGo_field_char6 hlen]
        exact ih _ _ _
      · cases hc : isWsChar c with
        | true => rw [splitFieldsGo_field_sep hc hlen]; exact ih _ _ _
        | false => rw [splitFieldsGo_field_char hc]; exact ih _ _ _

lemma splitFields_ne_empty (l : Str) : (splitFields l).length ≠ 0 := by
  have := splitFieldsGo_len_pos l [] [] false
  unfold splitFields
  omega

-- ### ParseJobs line-level lemmas

lemma parseJobsAux_cons (fname l : Str) (lno : Nat) (rest : List Str) :
    parseJobsAux fname lno (l :: rest) =
      if goTrimSpace l = [] then parseJobsAux fname (lno + 1) rest
      else if l.headD ' ' = '#' then parseJobsAux fname (lno + 1) rest
      else if (splitFields l).length = 0 then parseJobsAux fname (lno + 1) rest
      else parseJobsLine fname lno (splitFields l)
        (parseJobsAux fname (lno + 1) rest) := rfl

lemma parseJobsAux_skip_blank {fname l : Str} {lno : Nat} {rest : List Str}
    (h : goTrimSpace l = []) :
    parseJobsAux fname lno (l :: rest) = parseJobsAux fname (lno + 1) rest := by
  rw [parseJobsAux_cons, if_pos h]

lemma parseJobsAux_skip_comment {fname l : Str} {lno : Nat} {rest : List Str}
    (h1 : goTrimSpace l ≠ []) (h2 : l.headD ' ' = '#') :
    parseJobsAux fname lno (l :: rest) = parseJobsAux fname (lno + 1) rest := by
  rw [parseJobsAux_cons, if_neg h1, if_pos h2]

lemma parseJobsAux_line {fname l : Str} {lno : Nat} {rest : List Str}
    (h1 : goTrimSpace l ≠ []) (h2 : l.headD ' ' ≠ '#') :
    parseJobsAux fname lno (l :: rest) =
      parseJobsLine fname lno (splitFields l) (parseJobsAux fname (lno + 1) rest) := by
  rw [parseJobsAux_cons, if_neg h1, if_neg h2, if_neg (splitFields_ne_empty l)]

lemma parseJobsLine_not7 {fields : List Str} (h : fields.length ≠ 7)
    (fname : Str) (lno : Nat) (r : Except Str (List Job)) :
    parseJobsLine fname lno fields r =
      Except.error (parseErrorMsg fname lno msg7) := by
  rcases fields with _ | ⟨a0, _ | ⟨a1, _ | ⟨a2, _ | ⟨a3, _ | ⟨a4, _ | ⟨a5, _ |
    ⟨a6, _ | ⟨a7, t⟩⟩⟩⟩⟩⟩⟩⟩ <;>
    first
      | rfl
      | (exact absurd rfl h)

lemma list_len7 {α : Type} {xs : List α} (h : xs.length = 7) :
    ∃ a0 a1 a2 a3 a4 a5 a6, xs = [a0, a1, a2, a3, a4, a5, a6] := by
  rcases xs with _ | ⟨a0, _ | ⟨a1, _ | ⟨a2, _ | ⟨a3, _ | ⟨a4, _ | ⟨a5, _ |
    ⟨a6, _ | ⟨a7, t⟩⟩⟩⟩⟩⟩⟩⟩ <;>
    first
      | (exact ⟨a0, a1, a2, a3, a4, a5, a6, rfl⟩)
      | (simp at h)

/-- Claim C7: `ParseJobs` skips blank lines and lines starting with `#`;
non-skipped lines are tokenized so that (whenever either side yields
exactly 7 tokens) the Go field splitter agrees with run-collapsing
whitespace splitting of the first 6 fields plus the verbatim remainder as
the command; a non-skipped line that does not yield exactly 7 tokens
aborts the table with an error naming the source and the 0-based line
number. -/
theorem c7_tokenization_and_line_errors :
    (∀ l : Str, (splitFields l).length = 7 ∨ (specTokenize l).length = 7 →
       splitFields l = specTokenize l) ∧
    (∀ (fname l : Str) (lno : Nat) (rest : List Str),
       (goTrimSpace l = [] →
          parseJobsAux fname lno (l :: rest) = parseJobsAux fname (lno + 1) rest) ∧
       (goTrimSpace l ≠ [] → l.headD ' ' = '#' →
          parseJobsAux fname lno (l :: rest) = parseJobsAux fname (lno + 1) rest) ∧
       (goTrimSpace l ≠ [] → l.headD ' ' ≠ '#' → (splitFields l).length ≠ 7 →
          parseJobsAux fname lno (l :: rest) =
            Except.error (parseErrorMsg fname lno msg7))) := by
  refine ⟨fun l h => splitFields_length7_eq h, fun fname l lno rest => ⟨?_, ?_, ?_⟩⟩
  · exact fun h => parseJobsAux_skip_blank h
  · exact fun h1 h2 => parseJobsAux_skip_comment h1 h2
  · intro h1 h2 h7
    rw [parseJobsAux_line h1 h2, parseJobsLine_not7 h7]

/-- Witness for C7: a 7-token line tokenizes identically both ways; a
2-token line fails with the located 7-token error. -/
theorem c7_witness :
    splitFields (str "n 1 2 3 4  5 echo a  b") =
      specTokenize (str "n 1 2 3 4  5 echo a  b") ∧
    parseJobsAux (str "f") 3 [str "a b"] =
      Except.error (parseErrorMsg (str "f") 3 msg7) := by
  constructor
  · exact c7_tokenization_and_line_errors.1 _ (by decide)
  · exact (c7_tokenization_and_line_errors.2 (str "f") (str "a b") 3 []).2.2
      (by decide) (by decide) (by decide)

/-- The shape of the error message `ParseJobs` produces for a bad line:
either the 7-token message, or a field error wrapped with that field's
semantic name. -/
def semShape (l e : Str) : Prop :=
  ((splitFields l).length ≠ 7 ∧ e = msg7) ∨
  (∃ e1, parseTimeField ((splitFields l).getD 1 []) minuteBound =
      Except.error e1 ∧ e = minuteMsg ++ e1) ∨
  (∃ e1, parseTimeField ((splitFields l).getD 2 []) hourBound =
      Except.error e1 ∧ e = hourMsg ++ e1) ∨
  (∃ e1, parseTimeField ((splitFields l).getD 3 []) domBound =
      Except.error e1 ∧ e = domMsg ++ e1) ∨
  (∃ e1, parseTimeField ((splitFields l).getD 4 []) monthBound =
      Except.error e1 ∧ e = monthMsg ++ e1) ∨
  (∃ e1, parseTimeField ((splitFields l).getD 5 []) dowBound =
      Except.error e1 ∧ e = dowMsg ++ e1)

lemma parseJobsLine_errMin {a0 a1 a2 a3 a4 a5 a6 e : Str}
    (h : parseTimeField a1 minuteBound = Except.error e)
    (fname : Str) (lno : Nat) (r : Except Str (List Job)) :
    parseJobsLine fname lno [a0, a1, a2, a3, a4, a5, a6] r =
      Except.error (parseErrorMsg fname lno (minuteMsg ++ e)) := by
  simp [parseJobsLine, h]

lemma parseJobsLine_errHour {a0 a1 a2 a3 a4 a5 a6 e : Str} {v1 : Nat}
    (h1 : parseTimeField a1 minuteBound = Except.ok v1)
    (h : parseTimeField a2 hourBound = Except.error e)
    (fname : Str) (lno : Nat) (r : Except Str (List Job)) :
    parseJobsLine fname lno [a0, a1, a2, a3, a4, a5, a6] r =
      Except.error (parseErrorMsg fname lno (hourMsg ++ e)) := by
  simp [parseJobsLine, h1, h]

lemma parseJobsLine_errDom {a0 a1 a2 a3 a4 a5 a6 e : Str} {v1 v2 : Nat}
    (h1 : parseTimeField a1 minuteBound = Except.ok v1)
    (h2 : parseTimeField a2 hourBound = Except.ok v2)
    (h : parseTimeField a3 domBound = Except.error e)
    (fname : Str) (lno : Nat) (r : Except Str (List Job)) :
    parseJobsLine fname lno [a0, a1, a2, a3, a4, a5, a6] r =
      Except.error (parseErrorMsg fname lno (domMsg ++ e)) := by
  simp [parseJobsLine, h1, h2, h]

lemma parseJobsLine_errMonth {a0 a1 a2 a3 a4 a5 a6 e : Str} {v1 v2 v3 : Nat}
    (h1 : parseTimeField a1 minuteBound = Except.ok v1)
    (h2 : parseTimeField a2 hourBound = Except.ok v2)
    (h3 : parseTimeField a3 domBound = Except.ok v3)
    (h : parseTimeField a4 monthBound = Except.error e)
    (fname : Str) (lno : Nat) (r : Except Str (List Job)) :
    parseJobsLine fname lno [a0, a1, a2, a3, a4, a5, a6] r =
      Except.error (parseErrorMsg fname lno (monthMsg ++ e)) := by
  simp [parseJobsLine, h1, h2, h3, h]

lemma parseJobsLine_errDow {a0 a1 a2 a3 a4 a5 a6 e : Str} {v1 v2 v3 v4 : Nat}
    (h1 : parseTimeField a1 minuteBound = Except.ok v1)
    (h2 : parseTimeField a2 hourBound = Except.ok v2)
    (h3 : parseTimeField a3 domBound = Except.ok v3)
    (h4 : parseTimeField a4 monthBound = Except.ok v4)
    (h : parseTimeField a5 dowBound = Except.error e)
    (fname : Str) (lno : Nat) (r : Except Str (List Job)) :
    parseJobsLine fname lno [a0, a1, a2, a3, a4, a5, a6] r =
      Except.error (parseErrorMsg fname lno (dowMsg ++ e)) := by
  simp [parseJobsLine, h1, h2, h3, h4, h]

lemma parseJobsLine_pass {a0 a1 a2 a3 a4 a5 a6 : Str} {v1 v2 v3 v4 v5 : Nat}
    (h1 : parseTimeField a1 minuteBound = Except.ok v1)
    (h2 : parseTimeField a2 hourBound = Except.ok v2)
    (h3 : parseTimeField a3 domBound = Except.ok v3)
    (h4 : parseTimeField a4 monthBound = Except.ok v4)
    (h5 : parseTimeField a5 dowBound = Except.ok v5)
    (fname : Str) (lno : Nat) (e : Str) :
    parseJobsLine fname lno [a0, a1, a2, a3, a4, a5, a6] (Except.error e) =
      Except.error e := by
  simp [parseJobsLine, h1, h2, h3, h4, h5]

lemma parseJobsLine_ok {a0 a1 a2 a3 a4 a5 a6 : Str} {v1 v2 v3 v4 v5 : Nat}
    (h1 : parseTimeField a1 minuteBound = Except.ok v1)
    (h2 : parseTimeField a2 hourBound = Except.ok v2)
    (h3 : parseTimeField a3 domBound = Except.ok v3)
    (h4 : parseTimeField a4 monthBound = Except.ok v4)
    (h5 : parseTimeField a5 dowBound = Except.ok v5)
    (fname : Str) (lno : Nat) (jobs : List Job) :
    parseJobsLine fname lno [a0, a1, a2, a3, a4, a5, a6] (Except.ok jobs) =
      Except.ok ({ Name := a0, Command := a6, Minute := v1, Hour := v2,
                   Dom := v3, Month := v4, Dow := v5 } :: jobs) := by
  simp [parseJobsLine, h1, h2, h3, h4, h5]

lemma parseJobsAux_err :
    ∀ (lines : List Str) (fname : Str) (lno : Nat),
      (∃ l ∈ lines, ¬ lineOk l) →
      ∃ k e, parseJobsAux fname lno lines =
          Except.error (parseErrorMsg fname (lno + k) e) ∧
        k < lines.length ∧ ¬ lineOk (lines.getD k []) ∧
        (∀ i, i < k → lineOk (lines.getD i [])) ∧
        semShape (lines.getD k []) e := by
  intro lines
  induction lines with
  | nil =>
    rintro fname lno ⟨l, hl, _⟩
    cases hl
  | cons l rest ih =>
    intro fname lno hex
    by_cases hskip : lineSkip l
    · have hstep : parseJobsAux fname lno (l :: rest) =
          parseJobsAux fname (lno + 1) rest := by
        by_cases hb : goTrimSpace l = []
        · exact parseJobsAux_skip_blank hb
        · rcases hskip with h | h
          · exact absurd h hb
          · exact parseJobsAux_skip_comment hb h
      have hex' : ∃ l' ∈ rest, ¬ lineOk l' := by
        rcases hex with ⟨l', hm, hno⟩
        rcases List.mem_cons.mp hm with rfl | hm'
        · exact absurd (Or.inl hskip) hno
        · exact ⟨l', hm', hno⟩
      obtain ⟨k, e, h1, h2, h3, h4, h5⟩ := ih fname (lno + 1) hex'
      refine ⟨k + 1, e, ?_, by simp only [List.length_cons]; omega, ?_, ?_, ?_⟩
      · rw [hstep, h1, show lno + 1 + k = lno + (k + 1) from by omega]
      · rw [List.getD_cons_succ]
        exact h3
      · intro i hi
        cases i with
        | zero =>
          rw [List.getD_cons_zero]
          exact Or.inl hskip
        | succ j =>
          rw [List.getD_cons_succ]
          exact h4 j (by omega)
      · rw [List.getD_cons_succ]
        exact h5
    · have hb : goTrimSpace l ≠ [] := fun h => hskip (Or.inl h)
      have hh : l.headD ' ' ≠ '#' := fun h => hskip (Or.inr h)
      rw [parseJobsAux_line hb hh]
      by_cases h7 : (splitFields l).length = 7
      · obtain ⟨a0, a1, a2, a3, a4, a5, a6, hf⟩ := list_len7 h7
        rw [hf]
        cases hm1 : parseTimeField a1 minuteBound with
        | error e1 =>
          refine ⟨0, minuteMsg ++ e1, ?_, by simp, ?_,
            fun i hi => absurd hi (by omega), ?_⟩
          · exact parseJobsLine_errMin hm1 fname lno _
          · rw [List.getD_cons_zero]
            rintro (hsk | ⟨_, hokm, _⟩)
            · exact hskip hsk
            · rw [hf] at hokm
              have hokm2 : fieldOkB (parseTimeField a1 minuteBound) = true := hokm
              rw [hm1] at hokm2
              simp [fieldOkB] at hokm2
          · rw [List.getD_cons_zero]
            refine Or.inr (Or.inl ⟨e1, ?_, rfl⟩)
            rw [hf]
            exact hm1
        | ok v1 =>
          cases hm2 : parseTimeField a2 hourBound with
          | error e2 =>
            refine ⟨0, hourMsg ++ e2, ?_, by simp, ?_,
              fun i hi => absurd hi (by omega), ?_⟩
            · exact parseJobsLine_errHour hm1 hm2 fname lno _
            · rw [List.getD_cons_zero]
              rintro (hsk | ⟨_, _, hokh, _⟩)
              · exact hskip hsk
              · rw [hf] at hokh
                have hokh2 : fieldOkB (parseTimeField a2 hourBound) = true := hokh
                rw [hm2] at hokh2
                simp [fieldOkB] at hokh2
            · rw [List.getD_cons_zero]
              refine Or.inr (Or.inr (Or.inl ⟨e2, ?_, rfl⟩))
              rw [hf]
              exact hm2
          | ok v2 =>
            cases hm3 : parseTimeField a3 domBound with
            | error e3 =>
              refine ⟨0, domMsg ++ e3, ?_, by simp, ?_,
                fun i hi => absurd hi (by omega), ?_⟩
              · exact parseJobsLine_errDom hm1 hm2 hm3 fname lno _
              · rw [List.getD_cons_zero]
                rintro (hsk | ⟨_, _, _, hokd, _⟩)
                · exact hskip hsk
                · rw [hf] at hokd
                  have hokd2 : fieldOkB (parseTimeField a3 domBound) = true := hokd
                  rw [hm3] at hokd2
                  simp [fieldOkB] at hokd2
              · rw [List.getD_cons_zero]
                refine Or.inr (Or.inr (Or.inr (Or.inl ⟨e3, ?_, rfl⟩)))
                rw [hf]
                exact hm3
            | ok v3 =>
              cases hm4 : parseTimeField a4 monthBound with
              | error e4 =>
                refine ⟨0, monthMsg ++ e4, ?_, by simp, ?_,
                  fun i hi => absurd hi (by omega), ?_⟩
                · exact parseJobsLine_errMonth hm1 hm2 hm3 hm4 fname lno _
                · rw [List.getD_cons_zero]
                  rintro (hsk | ⟨_, _, _, _, hokmo, _⟩)
                  · exact hskip hsk
                  · rw [hf] at hokmo
                    have hokmo2 : fieldOkB (parseTimeField a4 monthBound) = true := hokmo
                    rw [hm4] at hokmo2
                    simp [fieldOkB] at hokmo2
                · rw [List.getD_cons_zero]
                  refine Or.inr (Or.inr (Or.inr (Or.inr (Or.inl ⟨e4, ?_, rfl⟩))))
                  rw [hf]
                  exact hm4
              | ok v4 =>
                cases hm5 : parseTimeField a5 dowBound with
                | error e5 =>
                  refine ⟨0, dowMsg ++ e5, ?_, by simp, ?_,
                    fun i hi => absurd hi (by omega), ?_⟩
                  · exact parseJobsLine_errDow hm1 hm2 hm3 hm4 hm5 fname lno _
                  · rw [List.getD_cons_zero]
                    rintro (hsk | ⟨_, _, _, _, _, hokw⟩)
                    · exact hskip hsk
                    · rw [hf] at hokw
                      have hokw2 : fieldOkB (parseTimeField a5 dowBound) = true := hokw
                      rw [hm5] at hokw2
                      simp [fieldOkB] at hokw2
                  · rw [List.getD_cons_zero]
                    refine Or.inr (Or.inr (Or.inr (Or.inr (Or.inr ⟨e5, ?_, rfl⟩))))
                    rw [hf]
                    exact hm5
                | ok v5 =>
                  have hok : lineOk l := by
                    refine Or.inr ⟨h7, ?_, ?_, ?_, ?_, ?_⟩ <;> rw [hf]
                    · show fieldOkB (parseTimeField a1 minuteBound) = true
                      rw [hm1]; rfl
                    · show fieldOkB (parseTimeField a2 hourBound) = true
                      rw [hm2]; rfl
                    · show fieldOkB (parseTimeField a3 domBound) = true
                      rw [hm3]; rfl
                    · show fieldOkB (parseTimeField a4 monthBound) = true
                      rw [hm4]; rfl
                    · show fieldOkB (parseTimeField a5 dowBound) = true
                      rw [hm5]; rfl
                  have hex' : ∃ l' ∈ rest, ¬ lineOk l' := by
                    rcases hex with ⟨l', hm, hno⟩
                    rcases List.mem_cons.mp hm with rfl | hm'
                    · exact absurd hok hno
                    · exact ⟨l', hm', hno⟩
                  obtain ⟨k, e, hh1, hh2, hh3, hh4, hh5⟩ :=
                    ih fname (lno + 1) hex'
                  refine ⟨k + 1, e, ?_,
                    by simp only [List.length_cons]; omega, ?_, ?_, ?_⟩
                  · rw [hh1, parseJobsLine_pass hm1 hm2 hm3 hm4 hm5,
                      show lno + (k + 1) = lno + 1 + k from by omega]
                  · rw [List.getD_cons_succ]
                    exact hh3
                  · intro i hi
                    cases i with
                    | zero =>
                      rw [List.getD_cons_zero]
                      exact hok
                    | succ j =>
                      rw [List.getD_cons_succ]
                      exact hh4 j (by omega)
                  · rw [List.getD_cons_succ]
                    exact hh5
      · refine ⟨0, msg7, ?_, by simp, ?_,
          fun i hi => absurd hi (by omega), ?_⟩
        · exact parseJobsLine_not7 h7 fname lno _
        · rw [List.getD_cons_zero]
          rintro (hsk | ⟨hl7, _⟩)
          · exact hskip hsk
          · exact h7 hl7
        · rw [List.getD_cons_zero]
          exact Or.inl ⟨h7, rfl⟩

lemma list_len2 {α : Type} {xs : List α} (h : xs.length = 2) :
    ∃ p q, xs = [p, q] := by
  rcases xs with _ | ⟨p, _ | ⟨q, _ | ⟨z, t⟩⟩⟩ <;>
    first
      | (exact ⟨p, q, rfl⟩)
      | (simp at h)

lemma parseStep_many {rs : List Str} (h : 3 ≤ rs.length) (sd : Bool)
    (r : bounds) (endv extra : Nat) (expr : Str) :
    parseStep rs sd r endv extra expr =
      Except.error (str "too many slashes: " ++ expr) := by
  rcases rs with _ | ⟨x, _ | ⟨y, _ | ⟨z, t⟩⟩⟩ <;>
    first
      | rfl
      | (simp at h)

lemma parseStartEnd_many {lh : List Str} {r : bounds} {expr : Str} {n : Nat}
    (hne : lh.headD [] ≠ str "*")
    (hok : parseIntOrName (lh.headD []) r.names = Except.ok n)
    (hlen : 3 ≤ lh.length) :
    parseStartEnd lh r expr =
      Except.error (str "too many hyphens: " ++ expr) := by
  rcases lh with _ | ⟨x, _ | ⟨y, _ | ⟨z, t⟩⟩⟩
  · simp at hlen
  · simp at hlen
  · simp at hlen
  · unfold parseStartEnd
    rw [if_neg hne, hok]

/-- Claim C5 (amended): a field expression errors when it has more than
one slash; when it has more than one hyphen in a range part that does not
begin with the bare `*`; when the start component fails to resolve (an
unparseable or negative integer, unknown name); when the end component —
consulted when the range part has exactly two hyphen-separated pieces —
fails to resolve; when a step token fails to parse; or when the resolved
values are out of bounds, inverted, or have a zero step. And whenever any non-skipped line
of a table is bad, `ParseJobs` rejects the whole table with an error
carrying the source name, the 0-based line number of the first bad line,
and that line's failure shape (the field's semantic name for a field
failure) — no job list is produced. -/
theorem c5_error_conditions :
    (∀ (expr : Str) (r : bounds), 3 ≤ (splitChar '/' expr).length →
       ∃ e, parseTimeRange expr r = Except.error e) ∧
    (∀ (expr : Str) (r : bounds),
       3 ≤ (splitChar '-' ((splitChar '/' expr).headD [])).length →
       (splitChar '-' ((splitChar '/' expr).headD [])).headD [] ≠ str "*" →
       ∃ e, parseTimeRange expr r = Except.error e) ∧
    (∀ (expr : Str) (r : bounds) (e : Str),
       (splitChar '-' ((splitChar '/' expr).headD [])).headD [] ≠ str "*" →
       parseIntOrName ((splitChar '-' ((splitChar '/' expr).headD [])).headD [])
         r.names = Except.error e →
       ∃ e2, parseTimeRange expr r = Except.error e2) ∧
    (∀ (expr : Str) (r : bounds) (e : Str),
       (splitChar '-' ((splitChar '/' expr).headD [])).headD [] ≠ str "*" →
       (splitChar '-' ((splitChar '/' expr).headD [])).length = 2 →
       parseIntOrName ((splitChar '-' ((splitChar '/' expr).headD [])).getD 1 [])
         r.names = Except.error e →
       ∃ e2, parseTimeRange expr r = Except.error e2) ∧
    (∀ (expr : Str) (r : bounds) (e : Str) (st en ex : Nat),
       parseStartEnd (splitChar '-' ((splitChar '/' expr).headD [])) r expr =
         Except.ok (st, en, ex) →
       (splitChar '/' expr).length = 2 →
       mustParseInt ((splitChar '/' expr).getD 1 []) = Except.error e →
       ∃ e2, parseTimeRange expr r = Except.error e2) ∧
    (∀ (expr : Str) (r : bounds) (st en ex stp en2 ex2 : Nat),
       parseStartEnd (splitChar '-' ((splitChar '/' expr).headD [])) r expr =
         Except.ok (st, en, ex) →
       parseStep (splitChar '/' expr)
         ((splitChar '-' ((splitChar '/' expr).headD [])).length == 1) r en ex
         expr = Except.ok (stp, en2, ex2) →
       (st < r.min ∨ r.max < en2 ∨ en2 < st ∨ stp = 0) →
       ∃ e, parseTimeRange expr r = Except.error e) ∧
    (∀ (fname tab : Str),
       (∃ l ∈ splitChar '\n' tab, ¬ lineOk l) →
       ∃ k e, ParseJobs fname tab = Except.error (parseErrorMsg fname k e) ∧
         k < (splitChar '\n' tab).length ∧
         ¬ lineOk ((splitChar '\n' tab).getD k []) ∧
         (∀ i, i < k → lineOk ((splitChar '\n' tab).getD i [])) ∧
         semShape ((splitChar '\n' tab).getD k []) e) := by
  refine ⟨?_, ?_, ?_, ?_, ?_, ?_, ?_⟩
  · intro expr r h
    cases ha : parseStartEnd (splitChar '-' ((splitChar '/' expr).headD []))
        r expr with
    | error e => exact ⟨e, parseTimeRange_err_startEnd ha⟩
    | ok t =>
      obtain ⟨st, en, ex⟩ := t
      exact ⟨_, parseTimeRange_err_step ha (parseStep_many h _ r en ex expr)⟩
  · intro expr r hlen hne
    cases hio : parseIntOrName
        ((splitChar '-' ((splitChar '/' expr).headD [])).headD []) r.names with
    | error e =>
      exact ⟨e, parseTimeRange_err_startEnd (parseStartEnd_err_first hne hio)⟩
    | ok n =>
      exact ⟨_, parseTimeRange_err_startEnd (parseStartEnd_many hne hio hlen)⟩
  · intro expr r e hne herr
    exact ⟨e, parseTimeRange_err_startEnd (parseStartEnd_err_first hne herr)⟩
  · intro expr r e hne hlen2 herr
    obtain ⟨p, q, hpq⟩ := list_len2 hlen2
    have hp : (splitChar '-' ((splitChar '/' expr).headD [])).headD [] = p := by
      rw [hpq]; rfl
    have hq : (splitChar '-' ((splitChar '/' expr).headD [])).getD 1 [] = q := by
      rw [hpq]; rfl
    rw [hp] at hne
    rw [hq] at herr
    cases hio : parseIntOrName p r.names with
    | error e1 =>
      refine ⟨e1, parseTimeRange_err_startEnd ?_⟩
      rw [hpq]
      exact parseStartEnd_err_first hne hio
    | ok n =>
      refine ⟨e, parseTimeRange_err_startEnd ?_⟩
      rw [hpq]
      exact parseStartEnd_err_second hne hio herr
  · intro expr r e st en ex ha hlen2 herr
    obtain ⟨p, q, hpq⟩ := list_len2 hlen2
    have hq : (splitChar '/' expr).getD 1 [] = q := by rw [hpq]; rfl
    rw [hq] at herr
    refine ⟨e, parseTimeRange_err_step ha ?_⟩
    rw [hpq]
    exact parseStep_pair_err herr
  · intro expr r st en ex stp en2 ex2 ha hb hbad
    exact parseTimeRange_validation_err ha hb hbad
  · intro fname tab hex
    obtain ⟨k, e, h1, h2, h3, h4, h5⟩ :=
      parseJobsAux_err (splitChar '\n' tab) fname 0 hex
    refine ⟨k, e, ?_, h2, h3, h4, h5⟩
    unfold ParseJobs
    rw [h1, Nat.zero_add]

/-- Counterexample to C5 as stated: `*-1-2` carries two hyphens yet the
field compiler accepts it (the too-many-hyphens check is skipped when the
range part starts with `*`). -/
theorem c5_counterexample :
    parseTimeField (str "*-1-2") minuteBound =
      Except.ok (getBits 0 59 1 ||| starBit) := by
  decide

/-- Witness for C5 at concrete inputs: `1/2/3` (two slashes) errors,
`0-x` (unparseable end of range) errors, and a table with an invalid
minute field is rejected with a located, semantically named error. -/
theorem c5_witness :
    (∃ e, parseTimeRange (str "1/2/3") minuteBound = Except.error e) ∧
    (∃ e, parseTimeRange (str "0-x") minuteBound = Except.error e) ∧
    (∃ k e, ParseJobs (str "f") (str "j x * * * * cmd") =
        Except.error (parseErrorMsg (str "f") k e) ∧
      k < (splitChar '\n' (str "j x * * * * cmd")).length ∧
      ¬ lineOk ((splitChar '\n' (str "j x * * * * cmd")).getD k []) ∧
      (∀ i, i < k →
        lineOk ((splitChar '\n' (str "j x * * * * cmd")).getD i [])) ∧
      semShape ((splitChar '\n' (str "j x * * * * cmd")).getD k []) e) :=
  ⟨c5_error_conditions.1 (str "1/2/3") minuteBound (by decide),
   c5_error_conditions.2.2.2.1 (str "0-x") minuteBound
     (str "failed to parse int from x") (by decide) (by decide) (by decide),
   c5_error_conditions.2.2.2.2.2.2 (str "f") (str "j x * * * * cmd")
     ⟨str "j x * * * * cmd", by decide, by decide⟩⟩

-- ### Field bound invariants (C6)

lemma parseStartEnd_ok_inv {lh : List Str} {r : bounds} {expr : Str}
    {st en ex : Nat}
    (h : parseStartEnd lh r expr = Except.ok (st, en, ex)) :
    ex = 0 ∨ ex = starBit := by
  unfold parseStartEnd at h
  by_cases hst : lh.headD [] = str "*"
  · rw [if_pos hst] at h
    simp only [Except.ok.injEq, Prod.mk.injEq] at h
    exact Or.inr h.2.2.symm
  · rw [if_neg hst] at h
    cases hio : parseIntOrName (lh.headD []) r.names with
    | error e =>
      rw [hio] at h
      simp at h
    | ok n =>
      rw [hio] at h
      rcases lh with _ | ⟨x, _ | ⟨y, _ | ⟨z, t⟩⟩⟩
      · simp at h
      · simp only [Except.ok.injEq, Prod.mk.injEq] at h
        exact Or.inl h.2.2.symm
      · replace h : (match parseIntOrName y r.names with
            | Except.error e => Except.error e
            | Except.ok endv =>
              (Except.ok (n, endv, 0) : Except Str (Nat × Nat × Nat))) =
            Except.ok (st, en, ex) := h
        cases hio2 : parseIntOrName y r.names with
        | error e =>
          rw [hio2] at h
          simp at h
        | ok m =>
          rw [hio2] at h
          simp only [Except.ok.injEq, Prod.mk.injEq] at h
          exact Or.inl h.2.2.symm
      · simp at h

lemma parseStep_ok_inv {rs : List Str} {sd : Bool} {r : bounds}
    {endv extra stp en2 ex2 : Nat} {expr : Str}
    (h : parseStep rs sd r endv extra expr = Except.ok (stp, en2, ex2)) :
    ex2 = 0 ∨ ex2 = extra := by
  rcases rs with _ | ⟨x, _ | ⟨y, _ | ⟨z, t⟩⟩⟩
  · simp [parseStep] at h
  · simp only [parseStep, Except.ok.injEq, Prod.mk.injEq] at h
    exact Or.inr h.2.2.symm
  · rw [parseStep_pair] at h
    cases hm : mustParseInt y with
    | error e =>
      rw [hm] at h
      simp at h
    | ok s =>
      rw [hm] at h
      simp only [Except.ok.injEq, Prod.mk.injEq] at h
      by_cases hs : 1 < s
      · rw [if_pos hs] at h
        exact Or.inl h.2.2.symm
      · rw [if_neg hs] at h
        exact Or.inr h.2.2.symm
  · simp [parseStep] at h

lemma parseTimeRange_ok_inv {expr : Str} {r : bounds} {v : Nat}
    (h : parseTimeRange expr r = Except.ok v) :
    ∃ st en ex stp en2 ex2,
      parseStartEnd (splitChar '-' ((splitChar '/' expr).headD [])) r expr =
        Except.ok (st, en, ex) ∧
      parseStep (splitChar '/' expr)
        ((splitChar '-' ((splitChar '/' expr).headD [])).length == 1) r en ex
        expr = Except.ok (stp, en2, ex2) ∧
      r.min ≤ st ∧ st ≤ en2 ∧ en2 ≤ r.max ∧ 1 ≤ stp ∧
      v = getBits st en2 stp ||| ex2 := by
  unfold parseTimeRange at h
  cases ha : parseStartEnd (splitChar '-' ((splitChar '/' expr).headD []))
      r expr with
  | error e =>
    rw [ha] at h
    simp at h
  | ok t =>
    obtain ⟨st, en, ex⟩ := t
    rw [ha] at h
    replace h : parseTimeRangeRest st en ex expr r = Except.ok v := h
    unfold parseTimeRangeRest at h
    cases hb : parseStep (splitChar '/' expr)
        ((splitChar '-' ((splitChar '/' expr).headD [])).length == 1) r en ex
        expr with
    | error e =>
      rw [hb] at h
      simp at h
    | ok t2 =>
      obtain ⟨stp, en2, ex2⟩ := t2
      rw [hb] at h
      replace h : parseTimeRangeRest2 st stp en2 ex2 expr r = Except.ok v := h
      unfold parseTimeRangeRest2 at h
      by_cases c1 : st < r.min
      · rw [if_pos c1] at h; simp at h
      rw [if_neg c1] at h
      by_cases c2 : r.max < en2
      · rw [if_pos c2] at h; simp at h
      rw [if_neg c2] at h
      by_cases c3 : en2 < st
      · rw [if_pos c3] at h; simp at h
      rw [if_neg c3] at h
      by_cases c4 : stp = 0
      · rw [if_pos c4] at h; simp at h
      rw [if_neg c4] at h
      simp only [Except.ok.injEq] at h
      exact ⟨st, en, ex, stp, en2, ex2, rfl, hb, by omega, by omega, by omega,
        by omega, h.symm⟩

lemma parseTimeRange_bound {expr : Str} {r : bounds} {v : Nat}
    (hrm : r.max ≤ 59) (h : parseTimeRange expr r = Except.ok v) :
    ∀ k, r.max < k → k ≠ 63 → v.testBit k = false := by
  obtain ⟨st, en, ex, stp, en2, ex2, ha, hb, h1, h2, h3, h4, hv⟩ :=
    parseTimeRange_ok_inv h
  intro k hk h63
  subst hv
  rw [Nat.testBit_or]
  have hg : (getBits st en2 stp).testBit k = false := by
    rw [getBits_testBit st en2 stp (by omega) (by omega) h4 k]
    have hno : ¬ (st ≤ k ∧ k ≤ en2 ∧ (k - st) % stp = 0) := by
      rintro ⟨_, hc, _⟩; omega
    simp [hno]
  have hex2 : ex2.testBit k = false := by
    rcases parseStep_ok_inv hb with h0 | hexx
    · rw [h0]; simp
    · rcases parseStartEnd_ok_inv ha with h0 | hstar
      · rw [hexx, h0]; simp
      · rw [hexx, hstar, starBit_testBit]
        simp [h63]
  rw [hg, hex2]
  rfl

lemma parseTimeFieldAux_bound {r : bounds} (hrm : r.max ≤ 59) :
    ∀ (ranges : List Str) (bits v : Nat),
      (∀ k, r.max < k → k ≠ 63 → bits.testBit k = false) →
      parseTimeFieldAux r bits ranges = Except.ok v →
      ∀ k, r.max < k → k ≠ 63 → v.testBit k = false := by
  intro ranges
  induction ranges with
  | nil =>
    intro bits v hbnd h
    simp only [parseTimeFieldAux, Except.ok.injEq] at h
    rw [← h]
    exact hbnd
  | cons e es ih =>
    intro bits v hbnd h
    simp only [parseTimeFieldAux] at h
    cases hp : parseTimeRange e r with
    | error er =>
      rw [hp] at h
      simp at h
    | ok bit =>
      rw [hp] at h
      refine ih (bits ||| bit) v ?_ h
      intro k hk h63
      rw [Nat.testBit_or, hbnd k hk h63, parseTimeRange_bound hrm hp k hk h63]
      rfl

lemma parseTimeField_bound {f : Str} {r : bounds} {v : Nat}
    (hrm : r.max ≤ 59) (h : parseTimeField f r = Except.ok v) :
    ∀ k, r.max < k → k ≠ 63 → v.testBit k = false := by
  unfold parseTimeField at h
  exact parseTimeFieldAux_bound hrm _ 0 v (fun k _ _ => Nat.zero_testBit k) h

/-- Per-field bound invariant for a compiled job: no value bit above the
field's bound (the wildcard tag bit 63 excepted). -/
def jobBounded (j : Job) : Prop :=
  (∀ k, 59 < k → k ≠ 63 → j.Minute.testBit k = false) ∧
  (∀ k, 23 < k → k ≠ 63 → j.Hour.testBit k = false) ∧
  (∀ k, 31 < k → k ≠ 63 → j.Dom.testBit k = false) ∧
  (∀ k, 12 < k → k ≠ 63 → j.Month.testBit k = false) ∧
  (∀ k, 6 < k → k ≠ 63 → j.Dow.testBit k = false)

lemma parseJobsLine_ok_inv {fname : Str} {lno : Nat} {fields : List Str}
    {R : Except Str (List Job)} {jobs : List Job}
    (h : parseJobsLine fname lno fields R = Except.ok jobs) :
    ∃ a0 a1 a2 a3 a4 a5 a6 v1 v2 v3 v4 v5 jobs',
      fields = [a0, a1, a2, a3, a4, a5, a6] ∧
      parseTimeField a1 minuteBound = Except.ok v1 ∧
      parseTimeField a2 hourBound = Except.ok v2 ∧
      parseTimeField a3 domBound = Except.ok v3 ∧
      parseTimeField a4 monthBound = Except.ok v4 ∧
      parseTimeField a5 dowBound = Except.ok v5 ∧
      R = Except.ok jobs' ∧
      jobs = { Name := a0, Command := a6, Minute := v1, Hour := v2,
               Dom := v3, Month := v4, Dow := v5 } :: jobs' := by
  rcases fields with _ | ⟨a0, _ | ⟨a1, _ | ⟨a2, _ | ⟨a3, _ | ⟨a4, _ | ⟨a5, _ |
    ⟨a6, _ | ⟨a7, t⟩⟩⟩⟩⟩⟩⟩⟩
  case cons.cons.cons.cons.cons.cons.cons.nil =>
    cases hm1 : parseTimeField a1 minuteBound with
    | error e => simp [parseJobsLine, hm1] at h
    | ok v1 =>
      cases hm2 : parseTimeField a2 hourBound with
      | error e => simp [parseJobsLine, hm1, hm2] at h
      | ok v2 =>
        cases hm3 : parseTimeField a3 domBound with
        | error e => simp [parseJobsLine, hm1, hm2, hm3] at h
        | ok v3 =>
          cases hm4 : parseTimeField a4 monthBound with
          | error e => simp [parseJobsLine, hm1, hm2, hm3, hm4] at h
          | ok v4 =>
            cases hm5 : parseTimeField a5 dowBound with
            | error e => simp [parseJobsLine, hm1, hm2, hm3, hm4, hm5] at h
            | ok v5 =>
              cases hR : R with
              | error e =>
                rw [hR, parseJobsLine_pass hm1 hm2 hm3 hm4 hm5] at h
                simp at h
              | ok jobs' =>
                rw [hR, parseJobsLine_ok hm1 hm2 hm3 hm4 hm5] at h
                simp only [Except.ok.injEq] at h
                exact ⟨a0, a1, a2, a3, a4, a5, a6, v1, v2, v3, v4, v5, jobs',
                  rfl, hm1, hm2, hm3, hm4, hm5, rfl, h.symm⟩
  all_goals simp [parseJobsLine] at h

lemma parseJobsAux_bounds :
    ∀ (lines : List Str) (fname : Str) (lno : Nat) (jobs : List Job),
      parseJobsAux fname lno lines = Except.ok jobs →
      ∀ j ∈ jobs, jobBounded j := by
  intro lines
  induction lines with
  | nil =>
    intro fname lno jobs h j hj
    simp only [parseJobsAux, Except.ok.injEq] at h
    rw [← h] at hj
    cases hj
  | cons l rest ih =>
    intro fname lno jobs h j hj
    rw [parseJobsAux_cons] at h
    by_cases hb : goTrimSpace l = []
    · rw [if_pos hb] at h
      exact ih fname (lno + 1) jobs h j hj
    rw [if_neg hb] at h
    by_cases hc : l.headD ' ' = '#'
    · rw [if_pos hc] at h
      exact ih fname (lno + 1) jobs h j hj
    rw [if_neg hc] at h
    by_cases h0 : (splitFields l).length = 0
    · rw [if_pos h0] at h
      exact ih fname (lno + 1) jobs h j hj
    rw [if_neg h0] at h
    obtain ⟨a0, a1, a2, a3, a4, a5, a6, v1, v2, v3, v4, v5, jobs', hf, hm1, hm2,
      hm3, hm4, hm5, hR, hjobs⟩ := parseJobsLine_ok_inv h
    subst hjobs
    rcases List.mem_cons.mp hj with rfl | hj'
    · exact ⟨parseTimeField_bound (by decide) hm1,
        parseTimeField_bound (by decide) hm2,
        parseTimeField_bound (by decide) hm3,
        parseTimeField_bound (by decide) hm4,
        parseTimeField_bound (by decide) hm5⟩
    · exact ih fname (lno + 1) jobs' hR j hj'

/-- Claim C6 (amended): every field of every job in an accepted table has
no bit above that field's `bounds.max` set, apart from the wildcard tag
bit 63 (which `*` expressions do set). -/
theorem c6_bounds_invariant (fname tab : Str) (jobs : List Job)
    (h : ParseJobs fname tab = Except.ok jobs) :
    ∀ j ∈ jobs, jobBounded j :=
  parseJobsAux_bounds (splitChar '\n' tab) fname 0 jobs h

set_option maxHeartbeats 4000000 in
theorem parseJobs_star_value :
    ParseJobs (str "t") (str "j * * * * * c") =
      Except.ok [{ Name := str "j", Command := str "c",
                   Minute := getBits 0 59 1 ||| starBit,
                   Hour := getBits 0 23 1 ||| starBit,
                   Dom := getBits 1 31 1 ||| starBit,
                   Month := getBits 1 12 1 ||| starBit,
                   Dow := getBits 0 6 1 ||| starBit }] := by
  decide

/-- Counterexample to C6 as stated: a table with wildcard fields is
accepted, yet the compiled minute field has bit 63 set, which is above
`bounds.max = 59`. -/
theorem c6_counterexample :
    ParseJobs (str "t") (str "j * * * * * c") =
      Except.ok [{ Name := str "j", Command := str "c",
                   Minute := getBits 0 59 1 ||| starBit,
                   Hour := getBits 0 23 1 ||| starBit,
                   Dom := getBits 1 31 1 ||| starBit,
                   Month := getBits 1 12 1 ||| starBit,
                   Dow := getBits 0 6 1 ||| starBit }] ∧
    (getBits 0 59 1 ||| starBit).testBit 63 = true ∧ 59 < 63 := by
  refine ⟨parseJobs_star_value, by decide, by omega⟩

/-- Witness for C6 at a concrete accepted table. -/
theorem c6_witness :
    (getBits 0 59 1 ||| starBit).testBit 64 = false :=
  (c6_bounds_invariant (str "t") (str "j * * * * * c")
    [{ Name := str "j", Command := str "c",
       Minute := getBits 0 59 1 ||| starBit,
       Hour := getBits 0 23 1 ||| starBit,
       Dom := getBits 1 31 1 ||| starBit,
       Month := getBits 1 12 1 ||| starBit,
       Dow := getBits 0 6 1 ||| starBit }] parseJobs_star_value
    { Name := str "j", Command := str "c",
      Minute := getBits 0 59 1 ||| starBit,
      Hour := getBits 0 23 1 ||| starBit,
      Dom := getBits 1 31 1 ||| starBit,
      Month := getBits 1 12 1 ||| starBit,
      Dow := getBits 0 6 1 ||| starBit }
    (List.mem_cons_self _ _)).1 64 (by omega) (by omega)
